import Mathlib

/-!
Verification of the analytics engine of an Excel-analytics backend.

The JavaScript source is shallowly embedded:

* cell values become the closed variant type `Value`
  (`null`/`undefined` collapse to `Value.vnull`; numeric cells are
  modelled as integers, statistics are computed over rationals);
* JS objects used as dictionaries become insertion-ordered association
  lists (`List (String × _)`); prototype-chain inheritance is not
  modelled, JS property-key reordering of integer-like keys is modelled
  by `jsObjKeys`;
* JS coercions (`Number(x)`, `String(x)`, `parseInt`, truthiness) are
  embedded for the value fragment above; `Number` on strings is
  modelled for integer literals, all other strings coerce to NaN
  (`none`);
* machine floats are idealised as `ℚ` (statistics) or `ℤ` (chart
  aggregation); `Array.prototype.sort()` with its default comparator is
  modelled as insertion sort by code-unit lexicographic order, which
  agrees with it on duplicate-free key lists.
-/

/-- Lower-cases an ASCII letter, leaves every other character unchanged.
Embeds the effect of `String.prototype.toLowerCase` on the ASCII-only
strings it is applied to in `cleanColumnName` (after stripping, only
`[a-zA-Z0-9_]` remain). -/
def asciiLower (c : Char) : Char :=
  if 65 ≤ c.toNat ∧ c.toNat ≤ 90 then Char.ofNat (c.toNat + 32) else c

/-- The character class `\s` of JS regular expressions. -/
def jsSpace (c : Char) : Bool :=
  (9 ≤ c.toNat ∧ c.toNat ≤ 13) ∨ c.toNat = 32 ∨ c.toNat = 160 ∨ c.toNat = 5760 ∨
    (8192 ≤ c.toNat ∧ c.toNat ≤ 8202) ∨ c.toNat = 8232 ∨ c.toNat = 8233 ∨
    c.toNat = 8239 ∨ c.toNat = 8287 ∨ c.toNat = 12288 ∨ c.toNat = 65279

/-- The character class `[a-zA-Z0-9_]`. -/
def wordChar (c : Char) : Bool :=
  (48 ≤ c.toNat ∧ c.toNat ≤ 57) ∨ (65 ≤ c.toNat ∧ c.toNat ≤ 90) ∨
    (97 ≤ c.toNat ∧ c.toNat ≤ 122) ∨ c.toNat = 95

/-- `replace(/\s+/g, '_')`: each maximal run of whitespace becomes a
single underscore.  The flag records whether the previous character was
whitespace (in which case the run has already emitted its underscore). -/
def wsPassAux (inRun : Bool) : List Char → List Char
  | [] => []
  | c :: cs =>
    if jsSpace c then
      if inRun then wsPassAux true cs else '_' :: wsPassAux true cs
    else c :: wsPassAux false cs

def wsPass (l : List Char) : List Char := wsPassAux false l

/-- `replace(/\./g, '_')` on a single character. -/
def dotRepl (c : Char) : Char := if c = '.' then '_' else c

/-- Does the cleaned name start with a digit or an underscore
(the regular expression test infix of the sanitizer)? -/
def startsDigitOrUnderscore : List Char → Bool
  | [] => false
  | c :: _ => (48 ≤ c.toNat ∧ c.toNat ≤ 57) ∨ c.toNat = 95

/-- Embedding of `cleanColumnName` (excelParser):
replace whitespace runs by `_`, replace dots by `_`, strip everything
outside `[a-zA-Z0-9_]`, lower-case, then guard names that start with a
digit or underscore with `col_`, and map the empty result to `column`. -/
def cleanColumnName (s : String) : String :=
  let cleaned := (((wsPass s.data).map dotRepl).filter wordChar).map asciiLower
  let guarded := if startsDigitOrUnderscore cleaned then 'c' :: 'o' :: 'l' :: '_' :: cleaned
    else cleaned
  if guarded.isEmpty then "column" else ⟨guarded⟩

/-- The sanitizer exactly as the specification words it: lower-case
first, then whitespace runs to `_`, dots to `_`, strip every remaining
character outside `[a-zA-Z0-9_]`, guard leading digit/underscore with
`col_`, map the empty result to `column`. -/
def specSanitize (s : String) : String :=
  let cleaned := ((wsPass (s.data.map asciiLower)).map dotRepl).filter wordChar
  let guarded := if startsDigitOrUnderscore cleaned then 'c' :: 'o' :: 'l' :: '_' :: cleaned
    else cleaned
  if guarded.isEmpty then "column" else ⟨guarded⟩

lemma charToNat_ofNat_of_lt (n : Nat) (h : n < 55296) : (Char.ofNat n).toNat = n := by
  unfold Char.ofNat
  rw [dif_pos (Or.inl (by omega))]
  rfl

lemma charEq_of_toNat_eq {a b : Char} (h : a.toNat = b.toNat) : a = b := by
  cases a; cases b
  simp only [Char.toNat] at h
  congr 1
  exact UInt32.toNat.inj h

lemma asciiLower_toNat (c : Char) :
    (asciiLower c).toNat = if 65 ≤ c.toNat ∧ c.toNat ≤ 90 then c.toNat + 32 else c.toNat := by
  unfold asciiLower
  split
  · next h => exact charToNat_ofNat_of_lt _ (by omega)
  · rfl

lemma jsSpace_asciiLower (c : Char) : jsSpace (asciiLower c) = jsSpace c := by
  simp only [jsSpace, decide_eq_decide, asciiLower_toNat]
  split <;> omega

lemma wordChar_asciiLower (c : Char) : wordChar (asciiLower c) = wordChar c := by
  simp only [wordChar, decide_eq_decide, asciiLower_toNat]
  split <;> omega

lemma dotRepl_asciiLower (c : Char) : dotRepl (asciiLower c) = asciiLower (dotRepl c) := by
  by_cases hdot : c = '.'
  · subst hdot
    decide
  · have hn : c.toNat ≠ 46 := fun h => hdot (charEq_of_toNat_eq h)
    have hne : asciiLower c ≠ '.' := by
      intro h
      have h2 := congrArg Char.toNat h
      rw [asciiLower_toNat] at h2
      have h46 : ('.' : Char).toNat = 46 := rfl
      rw [h46] at h2
      revert h2
      split <;> omega
    rw [dotRepl, if_neg hne, dotRepl, if_neg hdot]

lemma wsPassAux_map_asciiLower (l : List Char) :
    ∀ p, wsPassAux p (l.map asciiLower) = (wsPassAux p l).map asciiLower := by
  induction l with
  | nil => intro p; rfl
  | cons c cs ih =>
    intro p
    have hu : asciiLower '_' = '_' := by decide
    simp only [List.map_cons, wsPassAux, jsSpace_asciiLower]
    by_cases hc : jsSpace c = true
    · rw [if_pos hc, if_pos hc]
      cases p <;> simp [ih, hu]
    · rw [if_neg hc, if_neg hc, List.map_cons, ih]

lemma filter_wordChar_map_asciiLower (l : List Char) :
    (l.map asciiLower).filter wordChar = (l.filter wordChar).map asciiLower := by
  have h : (wordChar ∘ asciiLower) = wordChar := funext fun c => wordChar_asciiLower c
  rw [List.filter_map, h]

lemma map_dotRepl_map_asciiLower (l : List Char) :
    (l.map asciiLower).map dotRepl = (l.map dotRepl).map asciiLower := by
  rw [List.map_map, List.map_map]
  congr 1
  funext c
  exact dotRepl_asciiLower c

/-- C6: the column-name sanitizer agrees, on every header string, with
the specification's description (lower-case; whitespace runs to one
underscore; dots to underscores; strip everything outside
`[a-zA-Z0-9_]`; guard a leading digit/underscore with `col_`; the empty
result becomes `column`), and it maps "Sales Amount (USD)" to
`sales_amount_usd` and "2023" to `col_2023`. -/
theorem c6_cleanColumnName_matches_spec :
    (∀ s : String, cleanColumnName s = specSanitize s) ∧
      cleanColumnName "Sales Amount (USD)" = "sales_amount_usd" ∧
      cleanColumnName "2023" = "col_2023" := by
  refine ⟨fun s => ?_, by decide, by decide⟩
  unfold cleanColumnName specSanitize wsPass
  rw [wsPassAux_map_asciiLower, map_dotRepl_map_asciiLower, filter_wordChar_map_asciiLower]

/-- Decimal digit value of a character, if it is one of `[0-9]`. -/
def digitVal (c : Char) : Option Nat :=
  if 48 ≤ c.toNat ∧ c.toNat ≤ 57 then some (c.toNat - 48) else none

/-- The longest run of decimal digits at the head of the list. -/
def leadingDigits : List Char → List Nat
  | [] => []
  | c :: cs =>
    match digitVal c with
    | some d => d :: leadingDigits cs
    | none => []

def natOfDigits (l : List Nat) : Nat := l.foldl (fun a d => a * 10 + d) 0

/-- `parseInt(s, 10)` on the characters of `s`: skip leading
whitespace, read an optional sign and then leading decimal digits;
`none` models `NaN` (no digits at all). -/
def parseIntChars (l : List Char) : Option Int :=
  let l1 := l.dropWhile jsSpace
  match l1 with
  | '-' :: rest =>
    match leadingDigits rest with
    | [] => none
    | ds => some (-(natOfDigits ds : Int))
  | '+' :: rest =>
    match leadingDigits rest with
    | [] => none
    | ds => some (natOfDigits ds : Int)
  | _ =>
    match leadingDigits l1 with
    | [] => none
    | ds => some (natOfDigits ds : Int)

/-- `parseInt(q, 10)` on an optional query parameter
(`parseInt(undefined, 10)` is `NaN`). -/
def jsParseInt : Option String → Option Int
  | none => none
  | some s => parseIntChars s.data

/-- `x || d` for a parsed number `x`: `NaN` (`none`) and `0` are falsy
and yield the default. -/
def jsOrElse (o : Option Int) (d : Int) : Int :=
  match o with
  | none => d
  | some v => if v = 0 then d else v

/-- `const page = parseInt(req.query.page, 10) || 1` (data endpoint,
identically in the analyze and table-data endpoints). -/
def pageParam (q : Option String) : Int := jsOrElse (jsParseInt q) 1

/-- `const limit = parseInt(req.query.limit, 10) || 100` (data/analyze). -/
def dataLimitParam (q : Option String) : Int := jsOrElse (jsParseInt q) 100

/-- `const limit = parseInt(req.query.limit, 10) || 10` (table views). -/
def tableLimitParam (q : Option String) : Int := jsOrElse (jsParseInt q) 10

/-- C3, counterexample: the claim predicts that `page=-3` and
`limit=-5` are served with the defaults 1 and 100/10, but the code
keeps the parsed negative values (`parseInt(..) || dflt` only replaces
`NaN` and `0`). -/
theorem c3_counterexample :
    pageParam (some "-3") = -3 ∧ ((-3 : Int) ≠ 1) ∧
      dataLimitParam (some "-5") = -5 ∧ ((-5 : Int) ≠ 100) ∧
      tableLimitParam (some "-5") = -5 ∧ ((-5 : Int) ≠ 10) := by
  refine ⟨by decide, by decide, by decide, by decide, by decide, by decide⟩

/-- C3 (amended): in the data/analyze/table pagination, `page` is the
default 1 exactly when the parameter is absent, unparsable (`NaN`) or
parses to 0 or 1; `limit` likewise with defaults 100 (data/analyze)
and 10 (table views); any other parsed value — including negative
integers — is used as parsed. -/
theorem c3_pagination_defaults (q : Option String) :
    (pageParam q = 1 ↔
      jsParseInt q = none ∨ jsParseInt q = some 0 ∨ jsParseInt q = some 1) ∧
    (dataLimitParam q = 100 ↔
      jsParseInt q = none ∨ jsParseInt q = some 0 ∨ jsParseInt q = some 100) ∧
    (tableLimitParam q = 10 ↔
      jsParseInt q = none ∨ jsParseInt q = some 0 ∨ jsParseInt q = some 10) ∧
    (∀ v : Int, v ≠ 0 → jsParseInt q = some v →
      pageParam q = v ∧ dataLimitParam q = v ∧ tableLimitParam q = v) := by
  unfold pageParam dataLimitParam tableLimitParam jsOrElse
  match h : jsParseInt q with
  | none => simp
  | some v =>
    refine ⟨?_, ?_, ?_, ?_⟩
    · by_cases hv : v = 0 <;> simp [hv]
    · by_cases hv : v = 0 <;> simp [hv]
    · by_cases hv : v = 0 <;> simp [hv]
    · intro w hw hvw
      rw [Option.some.injEq] at hvw
      subst hvw
      simp [hw]

/-- `items.slice(start, end)` for non-negative indices (the form used
by the pagination code, whose indices are products of positives). -/
def jsSliceNat {α : Type} (l : List α) (s e : Nat) : List α :=
  (l.drop s).take (e - s)

/-- `Math.ceil(totalItems / limit)`, the page count of the pagination. -/
def totalPages (n limit : Nat) : Nat := (n + limit - 1) / limit

/-- All pages of the data endpoint, in page order: page `p` (1-based)
is `items.slice((p-1)*limit, p*limit)`. -/
def pages {α : Type} (l : List α) (limit : Nat) : List (List α) :=
  (List.range (totalPages l.length limit)).map
    (fun i => jsSliceNat l (i * limit) ((i + 1) * limit))

lemma totalPages_zero (limit : Nat) (h : 0 < limit) : totalPages 0 limit = 0 := by
  unfold totalPages
  exact Nat.div_eq_of_lt (by omega)

lemma totalPages_step (n limit : Nat) (h : 0 < limit) (hn : 0 < n) :
    totalPages n limit = totalPages (n - limit) limit + 1 := by
  unfold totalPages
  by_cases hle : n ≤ limit
  · have h1 : n - limit = 0 := by omega
    rw [h1]
    have h2 : (0 + limit - 1) / limit = 0 := Nat.div_eq_of_lt (by omega)
    rw [h2]
    have h3 : n + limit - 1 = (n - 1) + limit := by omega
    rw [h3, Nat.add_div_right _ h]
    have h4 : (n - 1) / limit = 0 := Nat.div_eq_of_lt (by omega)
    omega
  · have h3 : n + limit - 1 = (n - limit + limit - 1) + limit := by omega
    rw [h3, Nat.add_div_right _ h]

lemma pages_flatten_aux {α : Type} (limit : Nat) (h : 0 < limit) :
    ∀ (n : Nat) (l : List α), l.length = n → (pages l limit).flatten = l := by
  intro n
  induction n using Nat.strong_induction_on with
  | _ n ih =>
    intro l hn
    cases hm : n with
    | zero =>
      have hl : l = [] := List.eq_nil_of_length_eq_zero (by omega)
      subst hl
      simp [pages, totalPages_zero limit h]
    | succ m =>
      have hpos : 0 < l.length := by omega
      unfold pages
      rw [totalPages_step _ _ h hpos, List.range_succ_eq_map]
      rw [List.map_cons, List.map_map, List.flatten_cons]
      have hhead : jsSliceNat l (0 * limit) ((0 + 1) * limit) = l.take limit := by
        simp [jsSliceNat]
      have htail :
          ((List.range (totalPages (l.length - limit) limit)).map
            ((fun i => jsSliceNat l (i * limit) ((i + 1) * limit)) ∘ Nat.succ)) =
          pages (l.drop limit) limit := by
        unfold pages
        rw [List.length_drop]
        congr 1
        funext i
        simp only [Function.comp_apply, jsSliceNat, List.drop_drop, Nat.succ_eq_add_one]
        have e2 : (i + 1 + 1) * limit - (i + 1) * limit = (i + 1) * limit - i * limit := by
          have h1 : (i + 1 + 1) * limit = (i + 1) * limit + limit := by ring
          have h2 : (i + 1) * limit = i * limit + limit := by ring
          omega
        have e3 : limit + i * limit = (i + 1) * limit := by ring
        rw [e2, e3]
      rw [hhead, htail, ih (l.length - limit) (by omega) (l.drop limit) (by rw [List.length_drop])]
      exact List.take_append_drop limit l

/-- C9: pagination partitions the data. For every item sequence and
positive `limit`, concatenating `items.slice((p-1)*limit, p*limit)`
over pages `p = 1 .. Math.ceil(totalItems/limit)` in page order
reconstructs the sequence exactly — nothing dropped, nothing
duplicated. -/
theorem c9_pagination_partition {α : Type} (l : List α) (limit : Nat) (h : 0 < limit) :
    (pages l limit).flatten = l :=
  pages_flatten_aux limit h l.length l rfl

/-- C9 witness: five items, limit 2 (three pages: [0,1], [2,3], [4]). -/
theorem c9_pagination_partition_witness :
    0 < 2 ∧ (pages [10, 11, 12, 13, 14] 2).flatten = [10, 11, 12, 13, 14] :=
  ⟨by decide, c9_pagination_partition [10, 11, 12, 13, 14] 2 (by decide)⟩

/-- A sheet cell value. JS `null` and `undefined` collapse to `vnull`
(the source only ever tests the two together, except noted at use
sites); numbers are modelled as integers (the fragment the claims
exercise); arrays and objects only matter through their classification,
so their contents are not carried. -/
inductive Value where
  | vnull : Value
  | vbool : Bool → Value
  | vnum : Int → Value
  | vstr : String → Value
  | varr : Value
  | vobj : Value
deriving DecidableEq

/-- Embedding of `getDataType` (excelParser). The permissive date test
`!isNaN(Date.parse(value))` is a property of the JS runtime, not of
this repository; it is abstracted as the oracle `dp`, and every theorem
below holds for every oracle. -/
def getDataType (dp : String → Bool) : Value → String
  | Value.vnull => "null"
  | Value.vstr s => if dp s then "date" else "string"
  | Value.vnum _ => "number"
  | Value.vbool _ => "boolean"
  | Value.varr => "array"
  | Value.vobj => "object"

/-- `typeCount[type] = (typeCount[type] || 0) + 1` on the insertion-
ordered dictionary: increment in place, or append a fresh key at the
end with count 1. -/
def bumpCount : List (String × Nat) → String → List (String × Nat)
  | [], t => [(t, 1)]
  | (k, c) :: rest, t =>
    if k = t then (k, c + 1) :: rest else (k, c) :: bumpCount rest t

def tallyAux (dp : String → Bool) (m : List (String × Nat)) (vs : List Value) :
    List (String × Nat) :=
  vs.foldl (fun acc v => bumpCount acc (getDataType dp v)) m

/-- The `typeCount` dictionary of `inferDataType`, keys in first-
encounter order (none of the type names is an integer-like key, so JS
`for..in` iterates them in insertion order). -/
def typeTally (dp : String → Bool) (vs : List Value) : List (String × Nat) :=
  tallyAux dp [] vs

/-- The `for (const type in typeCount)` maximum scan of
`inferDataType`, with its strict comparison `typeCount[type] > maxCount`. -/
def scanMax : List (String × Nat) → String × Nat → String × Nat
  | [], acc => acc
  | (t, c) :: rest, acc => if c > acc.2 then scanMax rest (t, c) else scanMax rest acc

/-- Embedding of `inferDataType` (excelParser): tally the classified
types, then take the first-encountered maximum, starting from the
seed `('string', 0)`. An empty value list yields `'null'`. -/
def inferDataType (dp : String → Bool) (vs : List Value) : String :=
  if vs.isEmpty then "null" else (scanMax (typeTally dp vs) ("string", 0)).1

/-- First value bound to key `t` (0 when absent) — JS property read on
the tally dictionary. -/
def keyCount : List (String × Nat) → String → Nat
  | [], _ => 0
  | (k, c) :: rest, t => if k = t then c else keyCount rest t

lemma keyCount_bumpCount_self (m : List (String × Nat)) (t : String) :
    keyCount (bumpCount m t) t = keyCount m t + 1 := by
  induction m with
  | nil => simp [bumpCount, keyCount]
  | cons p rest ih =>
    obtain ⟨k, c⟩ := p
    by_cases hk : k = t
    · subst hk
      simp [bumpCount, keyCount]
    · simp [bumpCount, keyCount, hk, ih]

lemma keyCount_bumpCount_other (m : List (String × Nat)) (t t' : String) (h : t' ≠ t) :
    keyCount (bumpCount m t) t' = keyCount m t' := by
  have hts : t ≠ t' := Ne.symm h
  induction m with
  | nil =>
    simp only [bumpCount, keyCount]
    rw [if_neg hts]
  | cons p rest ih =>
    obtain ⟨k, c⟩ := p
    by_cases hk : k = t
    · subst hk
      simp only [bumpCount, if_pos rfl, keyCount]
      rw [if_neg hts, if_neg hts]
    · simp only [bumpCount, if_neg hk, keyCount]
      by_cases hk' : k = t'
      · rw [if_pos hk', if_pos hk']
      · rw [if_neg hk', if_neg hk', ih]

lemma bumpCount_keys (m : List (String × Nat)) (t : String) :
    (bumpCount m t).map Prod.fst =
      if t ∈ m.map Prod.fst then m.map Prod.fst else m.map Prod.fst ++ [t] := by
  induction m with
  | nil => simp [bumpCount]
  | cons p rest ih =>
    obtain ⟨k, c⟩ := p
    by_cases hk : k = t
    · subst hk
      simp [bumpCount]
    · simp only [bumpCount, if_neg hk, List.map_cons, List.mem_cons, ih]
      by_cases hmem : t ∈ rest.map Prod.fst
      · rw [if_pos hmem, if_pos (Or.inr hmem)]
      · rw [if_neg hmem, if_neg (by
          intro hor
          rcases hor with h1 | h2
          · exact hk h1.symm
          · exact hmem h2)]
        simp

lemma tallyAux_keyCount (dp : String → Bool) (vs : List Value) :
    ∀ (m : List (String × Nat)) (t : String),
      keyCount (tallyAux dp m vs) t = keyCount m t + (vs.map (getDataType dp)).count t := by
  induction vs with
  | nil => intro m t; simp [tallyAux]
  | cons v rest ih =>
    intro m t
    have hstep : tallyAux dp m (v :: rest) = tallyAux dp (bumpCount m (getDataType dp v)) rest := rfl
    rw [hstep, ih]
    by_cases hv : getDataType dp v = t
    · rw [hv, keyCount_bumpCount_self]
      simp [List.count_cons, hv]
      omega
    · rw [keyCount_bumpCount_other _ _ _ (fun hh => hv hh.symm)]
      simp [List.count_cons, hv]

lemma tallyAux_keys_mono (dp : String → Bool) (vs : List Value) :
    ∀ (m : List (String × Nat)) (k : String),
      k ∈ m.map Prod.fst → k ∈ (tallyAux dp m vs).map Prod.fst := by
  induction vs with
  | nil => intro m k h; exact h
  | cons v rest ih =>
    intro m k h
    apply ih
    rw [bumpCount_keys]
    split
    · exact h
    · exact List.mem_append_left _ h

lemma tallyAux_keys_of_mem (dp : String → Bool) (vs : List Value) :
    ∀ (m : List (String × Nat)) (k : String),
      k ∈ vs.map (getDataType dp) → k ∈ (tallyAux dp m vs).map Prod.fst := by
  induction vs with
  | nil => intro m k h; simp at h
  | cons v rest ih =>
    intro m k h
    rw [List.map_cons, List.mem_cons] at h
    have hstep : tallyAux dp m (v :: rest) =
        tallyAux dp (bumpCount m (getDataType dp v)) rest := rfl
    rw [hstep]
    rcases h with h1 | h2
    · apply tallyAux_keys_mono
      rw [bumpCount_keys]
      subst h1
      split
      · assumption
      · exact List.mem_append_right _ (by simp)
    · exact ih _ _ h2

lemma tallyAux_nodup_keys (dp : String → Bool) (vs : List Value) :
    ∀ (m : List (String × Nat)), (m.map Prod.fst).Nodup → ((tallyAux dp m vs).map Prod.fst).Nodup := by
  induction vs with
  | nil => intro m h; exact h
  | cons v rest ih =>
    intro m h
    apply ih
    rw [bumpCount_keys]
    split
    · exact h
    · next hmem =>
      rw [List.nodup_append]
      refine ⟨h, List.nodup_singleton _, ?_⟩
      intro a ha hb
      rw [List.mem_singleton] at hb
      subst hb
      exact hmem ha

lemma mem_of_mem_keys (m : List (String × Nat)) (k : String) (h : k ∈ m.map Prod.fst) :
    (k, keyCount m k) ∈ m := by
  induction m with
  | nil => simp at h
  | cons p rest ih =>
    obtain ⟨k', c⟩ := p
    by_cases hk : k' = k
    · subst hk
      simp [keyCount]
    · rw [List.map_cons, List.mem_cons] at h
      rcases h with h1 | h2
      · exact absurd h1.symm hk
      · simpa [keyCount, hk] using Or.inr (ih h2)

lemma keyCount_of_mem_nodup (m : List (String × Nat)) (k : String) (c : Nat) :
    (m.map Prod.fst).Nodup → (k, c) ∈ m → keyCount m k = c := by
  induction m with
  | nil => intro _ h; simp at h
  | cons p rest ih =>
    intro hd h
    obtain ⟨k', c'⟩ := p
    rw [List.map_cons, List.nodup_cons] at hd
    rcases List.mem_cons.mp h with h1 | h2
    · injection h1 with e1 e2
      subst e1; subst e2
      simp [keyCount]
    · have hk : k' ≠ k := by
        intro he
        apply hd.1
        rw [he]
        exact List.mem_map.mpr ⟨(k, c), h2, rfl⟩
      simp only [keyCount, if_neg hk]
      exact ih hd.2 h2

lemma scanMax_ge (l : List (String × Nat)) :
    ∀ acc : String × Nat, acc.2 ≤ (scanMax l acc).2 ∧ ∀ p ∈ l, p.2 ≤ (scanMax l acc).2 := by
  induction l with
  | nil => intro acc; exact ⟨le_refl _, by simp⟩
  | cons q rest ih =>
    intro acc
    obtain ⟨t, c⟩ := q
    by_cases hc : c > acc.2
    · rw [scanMax, if_pos hc]
      obtain ⟨h1, h2⟩ := ih (t, c)
      refine ⟨le_trans (le_of_lt hc) h1, ?_⟩
      intro p hp
      rcases List.mem_cons.mp hp with h3 | h4
      · subst h3; exact h1
      · exact h2 p h4
    · rw [scanMax, if_neg hc]
      obtain ⟨h1, h2⟩ := ih acc
      refine ⟨h1, ?_⟩
      intro p hp
      rcases List.mem_cons.mp hp with h3 | h4
      · subst h3; exact le_trans (by omega) h1
      · exact h2 p h4

lemma scanMax_cases (l : List (String × Nat)) :
    ∀ acc : String × Nat, scanMax l acc = acc ∨
      (acc.2 < (scanMax l acc).2 ∧ ∃ pre post, l = pre ++ (scanMax l acc) :: post ∧
        ∀ p ∈ pre, p.2 < (scanMax l acc).2) := by
  induction l with
  | nil => intro acc; exact Or.inl rfl
  | cons q rest ih =>
    intro acc
    obtain ⟨t, c⟩ := q
    by_cases hc : c > acc.2
    · rw [scanMax, if_pos hc]
      rcases ih (t, c) with h1 | ⟨h2, pre, post, he, hpre⟩
      · right
        rw [h1]
        exact ⟨hc, [], rest, rfl, by simp⟩
      · right
        refine ⟨lt_trans hc h2, (t, c) :: pre, post, by rw [List.cons_append, ← he], ?_⟩
        intro p hp
        rcases List.mem_cons.mp hp with h3 | h4
        · subst h3; exact h2
        · exact hpre p h4
    · rw [scanMax, if_neg hc]
      rcases ih acc with h1 | ⟨h2, pre, post, he, hpre⟩
      · exact Or.inl h1
      · right
        refine ⟨h2, (t, c) :: pre, post, by rw [List.cons_append, ← he], ?_⟩
        intro p hp
        rcases List.mem_cons.mp hp with h3 | h4
        · subst h3; omega
        · exact hpre p h4

lemma typeTally_keyCount (dp : String → Bool) (vs : List Value) (t : String) :
    keyCount (typeTally dp vs) t = (vs.map (getDataType dp)).count t := by
  unfold typeTally
  rw [tallyAux_keyCount]
  simp [keyCount]

lemma typeTally_nodup_keys (dp : String → Bool) (vs : List Value) :
    ((typeTally dp vs).map Prod.fst).Nodup :=
  tallyAux_nodup_keys dp vs [] (by simp)

/-- C4: on a non-empty value list, `inferDataType` returns a type that
occurs among the classified values, whose tally frequency is greatest,
and which is the first tally entry attaining that frequency in the
single left-to-right scan over the first-encounter-ordered tally
(entries before it are strictly smaller); on an empty list it returns
`'null'`.  All of this holds for every date-parsing oracle `dp`. -/
theorem c4_inferDataType_majority (dp : String → Bool) (vs : List Value) (hne : vs ≠ []) :
    inferDataType dp [] = "null" ∧
    inferDataType dp vs ∈ vs.map (getDataType dp) ∧
    (∀ t : String, (vs.map (getDataType dp)).count t ≤
      (vs.map (getDataType dp)).count (inferDataType dp vs)) ∧
    (∃ pre post, typeTally dp vs =
        pre ++ (inferDataType dp vs,
          (vs.map (getDataType dp)).count (inferDataType dp vs)) :: post ∧
      ∀ p ∈ pre, p.2 < (vs.map (getDataType dp)).count (inferDataType dp vs)) := by
  obtain ⟨v, rest, rfl⟩ : ∃ v rest, vs = v :: rest := by
    cases vs with
    | nil => exact absurd rfl hne
    | cons v rest => exact ⟨v, rest, rfl⟩
  refine ⟨rfl, ?_⟩
  have hr : inferDataType dp (v :: rest) =
      (scanMax (typeTally dp (v :: rest)) ("string", 0)).1 := rfl
  have hnodup := typeTally_nodup_keys dp (v :: rest)
  have hgv_keys : getDataType dp v ∈ (typeTally dp (v :: rest)).map Prod.fst :=
    tallyAux_keys_of_mem dp (v :: rest) [] _ (by simp)
  have hgv_entry := mem_of_mem_keys _ _ hgv_keys
  have hgv_pos : 0 < keyCount (typeTally dp (v :: rest)) (getDataType dp v) := by
    rw [typeTally_keyCount]
    exact List.count_pos_iff.mpr (by simp)
  rcases scanMax_cases (typeTally dp (v :: rest)) ("string", 0) with hfix | ⟨hlt, pre, post, he, hpre⟩
  · exfalso
    have hb := (scanMax_ge (typeTally dp (v :: rest)) ("string", 0)).2 _ hgv_entry
    rw [hfix] at hb
    simp at hb
    omega
  · have hrmem : scanMax (typeTally dp (v :: rest)) ("string", 0) ∈ typeTally dp (v :: rest) := by
      have hm : scanMax (typeTally dp (v :: rest)) ("string", 0) ∈
          pre ++ scanMax (typeTally dp (v :: rest)) ("string", 0) :: post :=
        List.mem_append_right _ (List.mem_cons_self _ _)
      rw [← he] at hm
      exact hm
    have hcnt : (scanMax (typeTally dp (v :: rest)) ("string", 0)).2 =
        ((v :: rest).map (getDataType dp)).count (inferDataType dp (v :: rest)) := by
      rw [hr, ← typeTally_keyCount]
      exact (keyCount_of_mem_nodup _ _ _ hnodup (by
        rw [← Prod.mk.eta (p := scanMax (typeTally dp (v :: rest)) ("string", 0))] at hrmem
        exact hrmem)).symm
    refine ⟨?_, ?_, ?_⟩
    · rw [hr]
      apply List.count_pos_iff.mp
      rw [← hr, ← hcnt]
      simp at hlt
      omega
    · intro t
      by_cases ht : t ∈ (v :: rest).map (getDataType dp)
      · have htk : t ∈ (typeTally dp (v :: rest)).map Prod.fst :=
          tallyAux_keys_of_mem dp (v :: rest) [] _ ht
        have hte := mem_of_mem_keys _ _ htk
        have hb := (scanMax_ge (typeTally dp (v :: rest)) ("string", 0)).2 _ hte
        rw [← typeTally_keyCount dp (v :: rest) t, ← hcnt]
        exact hb
      · rw [List.count_eq_zero_of_not_mem ht]
        exact Nat.zero_le _
    · refine ⟨pre, post, ?_, ?_⟩
      · rw [he]
        congr 1
        rw [← hcnt, hr, Prod.mk.eta]
      · intro p hp
        rw [← hcnt]
        exact hpre p hp

/-- C4 witness: the classified types of `[1, "a", 2]` (with an oracle
that parses no dates) are number, string, number; the inferred type is
the majority type `number`. -/
theorem c4_inferDataType_majority_witness :
    ([Value.vnum 1, Value.vstr "a", Value.vnum 2] ≠ ([] : List Value)) ∧
      (inferDataType (fun _ => false) [Value.vnum 1, Value.vstr "a", Value.vnum 2] ∈
        [Value.vnum 1, Value.vstr "a", Value.vnum 2].map (getDataType (fun _ => false))) :=
  ⟨by decide,
    (c4_inferDataType_majority (fun _ => false)
      [Value.vnum 1, Value.vstr "a", Value.vnum 2] (by decide)).2.1⟩

/-- The statistics record of `calculateStatistics`, restricted to the
fields the number branch populates (absent fields are `none`).  The
`stdDev` field of the source is `Math.sqrt(variance)` and is therefore
determined by `variance`; the square root does not exist inside `ℚ`,
so it is represented by the nonnegativity of `variance` in the
theorems below. -/
structure Statistics where
  count : Nat
  nullCount : Nat
  uniqueCount : Option Nat
  min : Option ℚ
  max : Option ℚ
  sum : Option ℚ
  mean : Option ℚ
  variance : Option ℚ
deriving DecidableEq

/-- `Math.min(...xs)` on a non-empty rational list. -/
def qListMin : List ℚ → Option ℚ
  | [] => none
  | x :: xs => some (xs.foldl min x)

/-- `Math.max(...xs)` on a non-empty rational list. -/
def qListMax : List ℚ → Option ℚ
  | [] => none
  | x :: xs => some (xs.foldl max x)

/-- Embedding of `calculateStatistics` (excelParser) on a
numeric-or-null column (`none` is a `null`/`undefined` cell).  The
string and date branches of the source operate on string-valued
columns and are outside this numeric fragment; no claim touches them.
Machine floats are idealised as `ℚ`, so the number branch is exact. -/
def calculateStatistics (values : List (Option ℚ)) (dataType : String) : Statistics :=
  let filteredValues := values.filterMap id
  let base : Statistics :=
    { count := values.length, nullCount := values.length - filteredValues.length,
      uniqueCount := none, min := none, max := none, sum := none, mean := none,
      variance := none }
  if filteredValues.length = 0 then base
  else
    let s1 := { base with uniqueCount := some filteredValues.dedup.length }
    if dataType = "number" then
      let sum := filteredValues.foldl (· + ·) 0
      let mean := sum / (filteredValues.length : ℚ)
      let s2 := { s1 with
        min := qListMin filteredValues, max := qListMax filteredValues,
        sum := some sum, mean := some mean }
      if 1 < filteredValues.length then
        let varnc := ((filteredValues.map (fun v => (v - mean) ^ 2)).foldl (· + ·) 0) /
          (filteredValues.length : ℚ)
        { s2 with variance := some varnc }
      else s2
    else s1

lemma foldl_add_eq_sum (l : List ℚ) : ∀ a : ℚ, l.foldl (· + ·) a = a + l.sum := by
  induction l with
  | nil => intro a; simp
  | cons x xs ih =>
    intro a
    rw [List.foldl_cons, ih, List.sum_cons]
    ring

lemma foldl_min_le (l : List ℚ) :
    ∀ a : ℚ, l.foldl min a ≤ a ∧ ∀ y ∈ l, l.foldl min a ≤ y := by
  induction l with
  | nil => intro a; exact ⟨le_refl _, by simp⟩
  | cons x xs ih =>
    intro a
    obtain ⟨h1, h2⟩ := ih (min a x)
    rw [List.foldl_cons]
    refine ⟨le_trans h1 (min_le_left _ _), ?_⟩
    intro y hy
    rcases List.mem_cons.mp hy with h3 | h4
    · subst h3; exact le_trans h1 (min_le_right _ _)
    · exact h2 y h4

lemma foldl_min_mem (l : List ℚ) : ∀ a : ℚ, l.foldl min a = a ∨ l.foldl min a ∈ l := by
  induction l with
  | nil => intro a; exact Or.inl rfl
  | cons x xs ih =>
    intro a
    rw [List.foldl_cons]
    rcases ih (min a x) with h1 | h2
    · rcases min_choice a x with hm | hm
      · rw [hm] at h1 ⊢; exact Or.inl h1
      · rw [hm] at h1 ⊢; exact Or.inr (by rw [h1]; exact List.mem_cons_self _ _)
    · exact Or.inr (List.mem_cons_of_mem _ h2)

lemma foldl_max_ge (l : List ℚ) :
    ∀ a : ℚ, a ≤ l.foldl max a ∧ ∀ y ∈ l, y ≤ l.foldl max a := by
  induction l with
  | nil => intro a; exact ⟨le_refl _, by simp⟩
  | cons x xs ih =>
    intro a
    obtain ⟨h1, h2⟩ := ih (max a x)
    rw [List.foldl_cons]
    refine ⟨le_trans (le_max_left _ _) h1, ?_⟩
    intro y hy
    rcases List.mem_cons.mp hy with h3 | h4
    · subst h3; exact le_trans (le_max_right _ _) h1
    · exact h2 y h4

lemma foldl_max_mem (l : List ℚ) : ∀ a : ℚ, l.foldl max a = a ∨ l.foldl max a ∈ l := by
  induction l with
  | nil => intro a; exact Or.inl rfl
  | cons x xs ih =>
    intro a
    rw [List.foldl_cons]
    rcases ih (max a x) with h1 | h2
    · rcases max_choice a x with hm | hm
      · rw [hm] at h1 ⊢; exact Or.inl h1
      · rw [hm] at h1 ⊢; exact Or.inr (by rw [h1]; exact List.mem_cons_self _ _)
    · exact Or.inr (List.mem_cons_of_mem _ h2)

lemma length_filterMap_add_count_none (values : List (Option ℚ)) :
    (values.filterMap id).length + values.count none = values.length := by
  induction values with
  | nil => rfl
  | cons v rest ih =>
    cases v with
    | none => simp [List.count_cons, ih]; omega
    | some q =>
      have : (none : Option ℚ) ≠ some q := by simp
      simp [List.count_cons, ih]
      omega

lemma calcStats_no_values (values : List (Option ℚ)) (dt : String)
    (h0 : (values.filterMap id).length = 0) :
    calculateStatistics values dt =
      { count := values.length, nullCount := values.length - (values.filterMap id).length,
        uniqueCount := none, min := none, max := none, sum := none, mean := none,
        variance := none } := by
  simp only [calculateStatistics]
  rw [if_pos h0]

lemma calcStats_number_one (values : List (Option ℚ))
    (h0 : ¬ (values.filterMap id).length = 0) (h1 : ¬ 1 < (values.filterMap id).length) :
    calculateStatistics values "number" =
      { count := values.length, nullCount := values.length - (values.filterMap id).length,
        uniqueCount := some (values.filterMap id).dedup.length,
        min := qListMin (values.filterMap id), max := qListMax (values.filterMap id),
        sum := some ((values.filterMap id).foldl (· + ·) 0),
        mean := some ((values.filterMap id).foldl (· + ·) 0 /
          ((values.filterMap id).length : ℚ)),
        variance := none } := by
  simp only [calculateStatistics]
  rw [if_neg h0]
  simp only [if_true]
  rw [if_neg h1]

lemma calcStats_number_many (values : List (Option ℚ))
    (h0 : ¬ (values.filterMap id).length = 0) (h1 : 1 < (values.filterMap id).length) :
    calculateStatistics values "number" =
      { count := values.length, nullCount := values.length - (values.filterMap id).length,
        uniqueCount := some (values.filterMap id).dedup.length,
        min := qListMin (values.filterMap id), max := qListMax (values.filterMap id),
        sum := some ((values.filterMap id).foldl (· + ·) 0),
        mean := some ((values.filterMap id).foldl (· + ·) 0 /
          ((values.filterMap id).length : ℚ)),
        variance := some (((values.filterMap id).map
            (fun v => (v - (values.filterMap id).foldl (· + ·) 0 /
              ((values.filterMap id).length : ℚ)) ^ 2)).foldl (· + ·) 0 /
          ((values.filterMap id).length : ℚ)) } := by
  simp only [calculateStatistics]
  rw [if_neg h0]
  simp only [if_true]
  rw [if_pos h1]

/-- C5: on a column of inferred type number, `calculateStatistics`
computes every aggregate over the non-null values only: `count` is the
total length, `nullCount` the number of nulls; when non-null values
exist, `uniqueCount` is the number of distinct non-null values, `sum`
their sum, `mean = sum / nonNullCount`, `min`/`max` are attained
members bounding every non-null value; with at least 2 non-null
values, `variance` is the mean of squared deviations from the mean
with divisor nonNullCount (population variance), and it is ≥ 0 (so
`stdDev = Math.sqrt(variance)` is well-defined and squares back to
it).  Scenario: `[10, 20, null, 30]` gives count 4, nullCount 1,
uniqueCount 3, min 10, max 30, sum 60, mean 20 (and variance 200/3). -/
theorem c5_calculateStatistics_number (values : List (Option ℚ)) :
    (calculateStatistics values "number").count = values.length ∧
    (calculateStatistics values "number").nullCount = values.count none ∧
    (values.filterMap id ≠ [] →
      (calculateStatistics values "number").uniqueCount =
        some (values.filterMap id).dedup.length ∧
      (calculateStatistics values "number").sum = some (values.filterMap id).sum ∧
      (calculateStatistics values "number").mean =
        some ((values.filterMap id).sum / ((values.filterMap id).length : ℚ)) ∧
      (∃ m, (calculateStatistics values "number").min = some m ∧
        m ∈ values.filterMap id ∧ ∀ x ∈ values.filterMap id, m ≤ x) ∧
      (∃ M, (calculateStatistics values "number").max = some M ∧
        M ∈ values.filterMap id ∧ ∀ x ∈ values.filterMap id, x ≤ M)) ∧
    (2 ≤ (values.filterMap id).length →
      ∃ v : ℚ, (calculateStatistics values "number").variance = some v ∧
        v = ((values.filterMap id).map
              (fun x => (x - (values.filterMap id).sum /
                ((values.filterMap id).length : ℚ)) ^ 2)).sum /
            ((values.filterMap id).length : ℚ) ∧
        0 ≤ v) ∧
    calculateStatistics [some 10, some 20, none, some 30] "number" =
      { count := 4, nullCount := 1, uniqueCount := some 3, min := some 10, max := some 30,
        sum := some 60, mean := some 20, variance := some (200 / 3) } := by
  have hcount : ∀ dtv : List (Option ℚ), (calculateStatistics dtv "number").count = dtv.length := by
    intro dtv
    by_cases h0 : (dtv.filterMap id).length = 0
    · rw [calcStats_no_values _ _ h0]
    · by_cases h1 : 1 < (dtv.filterMap id).length
      · rw [calcStats_number_many _ h0 h1]
      · rw [calcStats_number_one _ h0 h1]
  have hnull : (calculateStatistics values "number").nullCount = values.count none := by
    have hlen := length_filterMap_add_count_none values
    by_cases h0 : (values.filterMap id).length = 0
    · rw [calcStats_no_values _ _ h0]; dsimp only; omega
    · by_cases h1 : 1 < (values.filterMap id).length
      · rw [calcStats_number_many _ h0 h1]; dsimp only; omega
      · rw [calcStats_number_one _ h0 h1]; dsimp only; omega
  refine ⟨hcount values, hnull, ?_, ?_, ?_⟩
  · intro hne
    have h0 : ¬ (values.filterMap id).length = 0 := by
      intro h; exact hne (List.length_eq_zero.mp h)
    obtain ⟨x, xs, hxx⟩ : ∃ x xs, values.filterMap id = x :: xs := by
      cases hfm : values.filterMap id with
      | nil => exact absurd hfm (by rw [hfm] at hne ⊢; exact hne)
      | cons x xs => exact ⟨x, xs, rfl⟩
    have hsum : (values.filterMap id).foldl (· + ·) 0 = (values.filterMap id).sum := by
      rw [foldl_add_eq_sum]; ring
    have hbranch : (calculateStatistics values "number").uniqueCount =
          some (values.filterMap id).dedup.length ∧
        (calculateStatistics values "number").min = qListMin (values.filterMap id) ∧
        (calculateStatistics values "number").max = qListMax (values.filterMap id) ∧
        (calculateStatistics values "number").sum =
          some ((values.filterMap id).foldl (· + ·) 0) ∧
        (calculateStatistics values "number").mean =
          some ((values.filterMap id).foldl (· + ·) 0 / ((values.filterMap id).length : ℚ)) := by
      by_cases h1 : 1 < (values.filterMap id).length
      · rw [calcStats_number_many _ h0 h1]; exact ⟨rfl, rfl, rfl, rfl, rfl⟩
      · rw [calcStats_number_one _ h0 h1]; exact ⟨rfl, rfl, rfl, rfl, rfl⟩
    obtain ⟨hu, hmin, hmax, hs, hm⟩ := hbranch
    refine ⟨hu, by rw [hs, hsum], by rw [hm, hsum], ?_, ?_⟩
    · refine ⟨xs.foldl min x, ?_, ?_, ?_⟩
      · rw [hmin, hxx]; rfl
      · rw [hxx]
        rcases foldl_min_mem xs x with he | hm2
        · rw [he]; exact List.mem_cons_self _ _
        · exact List.mem_cons_of_mem _ hm2
      · intro y hy
        rw [hxx] at hy
        rcases List.mem_cons.mp hy with h2 | h3
        · subst h2; exact (foldl_min_le xs y).1
        · exact (foldl_min_le xs x).2 y h3
    · refine ⟨xs.foldl max x, ?_, ?_, ?_⟩
      · rw [hmax, hxx]; rfl
      · rw [hxx]
        rcases foldl_max_mem xs x with he | hm2
        · rw [he]; exact List.mem_cons_self _ _
        · exact List.mem_cons_of_mem _ hm2
      · intro y hy
        rw [hxx] at hy
        rcases List.mem_cons.mp hy with h2 | h3
        · subst h2; exact (foldl_max_ge xs y).1
        · exact (foldl_max_ge xs x).2 y h3
  · intro h2
    have h0 : ¬ (values.filterMap id).length = 0 := by omega
    have h1 : 1 < (values.filterMap id).length := by omega
    have hsum : (values.filterMap id).foldl (· + ·) 0 = (values.filterMap id).sum := by
      rw [foldl_add_eq_sum]; ring
    have hsum2 : ∀ l : List ℚ, l.foldl (· + ·) 0 = l.sum := by
      intro l; rw [foldl_add_eq_sum]; ring
    rw [calcStats_number_many _ h0 h1]
    refine ⟨_, rfl, ?_, ?_⟩
    · rw [hsum2, hsum]
    · apply div_nonneg
      · rw [hsum2]
        apply List.sum_nonneg
        intro y hy
        rw [List.mem_map] at hy
        obtain ⟨z, _, hz⟩ := hy
        rw [← hz]
        positivity
      · positivity
  · have hfm : (List.filterMap id [some (10 : ℚ), some 20, none, some 30]) = [10, 20, 30] := rfl
    have hmin : qListMin ([10, 20, 30] : List ℚ) = some 10 := by
      show some (([20, 30] : List ℚ).foldl min 10) = some 10
      norm_num [min_def]
    have hmax : qListMax ([10, 20, 30] : List ℚ) = some 30 := by
      show some (([20, 30] : List ℚ).foldl max 10) = some 30
      norm_num [max_def]
    have hded : ([10, 20, 30] : List ℚ).dedup = [10, 20, 30] :=
      List.dedup_eq_self.mpr (by norm_num)
    rw [calcStats_number_many]
    rotate_left
    · rw [hfm]
      norm_num
    · rw [hfm]
      norm_num
    rw [hfm, Statistics.mk.injEq, hmin, hmax, hded]
    norm_num

/-- C5 witness: the scenario column has non-null values and at least
two of them; the theorem then yields its sum and variance facts. -/
theorem c5_calculateStatistics_number_witness :
    (List.filterMap id [some (10 : ℚ), some 20, none, some 30] ≠ []) ∧
    2 ≤ (List.filterMap id [some (10 : ℚ), some 20, none, some 30]).length ∧
    (calculateStatistics [some (10 : ℚ), some 20, none, some 30] "number").sum =
      some ((List.filterMap id [some (10 : ℚ), some 20, none, some 30]).sum) ∧
    ∃ v : ℚ, (calculateStatistics [some (10 : ℚ), some 20, none, some 30] "number").variance =
        some v ∧
      v = ((List.filterMap id [some (10 : ℚ), some 20, none, some 30]).map
            (fun x => (x - (List.filterMap id [some (10 : ℚ), some 20, none, some 30]).sum /
              ((List.filterMap id [some (10 : ℚ), some 20, none, some 30]).length : ℚ)) ^ 2)).sum /
          ((List.filterMap id [some (10 : ℚ), some 20, none, some 30]).length : ℚ) ∧
      0 ≤ v :=
  ⟨by decide, by decide,
    ((c5_calculateStatistics_number [some (10 : ℚ), some 20, none, some 30]).2.2.1
      (by decide)).2.1,
    (c5_calculateStatistics_number [some (10 : ℚ), some 20, none, some 30]).2.2.2.1
      (by decide)⟩

/-- Decimal digits of `n`, most significant first, by structural fuel
(`fuel = n` always suffices since a number has at most `n+1` digits). -/
def decChars : Nat → Nat → List Char
  | 0, _ => []
  | fuel + 1, n =>
    if n < 10 then [Char.ofNat (48 + n)]
    else decChars fuel (n / 10) ++ [Char.ofNat (48 + n % 10)]

/-- The decimal representation of a natural number (JS number-to-string
for the integral values this model carries). -/
def decStr (n : Nat) : String := ⟨decChars (n + 1) n⟩

/-- JS string of an integer. -/
def intDecStr (n : Int) : String :=
  if n < 0 then "-" ++ decStr (-n).toNat else decStr n.toNat

/-- `String(v)` — used when a row value becomes a JS property key.
Array stringification (`[1,2].toString()`) is outside the modelled
fragment (such keys appear in no claim); an object stringifies to
`[object Object]` as in JS. -/
def jsToString : Value → String
  | Value.vnull => "null"
  | Value.vbool b => if b then "true" else "false"
  | Value.vnum n => intDecStr n
  | Value.vstr s => s
  | Value.varr => ""
  | Value.vobj => "[object Object]"

def allDigits (l : List Char) : Bool := l.all (fun c => 48 ≤ c.toNat ∧ c.toNat ≤ 57)

def charsToNat (l : List Char) : Nat := natOfDigits (l.map (fun c => c.toNat - 48))

/-- `Number(s)`: trimmed empty string is 0; an optional sign followed by
decimal digits is that integer; everything else is NaN (`none`).
Fractional, hexadecimal and exponent literals are outside the modelled
(integer-valued) fragment. -/
def jsNumberOfString (s : String) : Option Int :=
  let t := ((s.data.dropWhile jsSpace).reverse.dropWhile jsSpace).reverse
  match t with
  | [] => some 0
  | '-' :: rest =>
    if rest ≠ [] ∧ allDigits rest then some (-(charsToNat rest : Int)) else none
  | '+' :: rest =>
    if rest ≠ [] ∧ allDigits rest then some ((charsToNat rest : Int)) else none
  | l => if allDigits l then some ((charsToNat l : Int)) else none

/-- `Number(v)`; `none` is NaN.  `Number(null) = 0`; merging `undefined`
into `vnull` is harmless in the formatter because every use either
filters both out first or applies `|| 0`, which sends both NaN and 0 to
0. `Number` of an array is outside the modelled fragment. -/
def jsToNumber : Value → Option Int
  | Value.vnull => some 0
  | Value.vbool b => some (if b then 1 else 0)
  | Value.vnum n => some n
  | Value.vstr s => jsNumberOfString s
  | Value.varr => none
  | Value.vobj => none

/-- Is an (optional) query-string parameter JS-falsy (absent or empty)? -/
def jsFalsyStr : Option String → Bool
  | none => true
  | some s => s = ""

/-- `q || d` on an optional string parameter. -/
def jsOrStr (q : Option String) (d : String) : String :=
  match q with
  | none => d
  | some s => if s = "" then d else s

def optStr (q : Option String) : String :=
  match q with
  | none => ""
  | some s => s

/-- A processed row: a JS object, i.e. an insertion-ordered mapping
from property names to values. -/
abbrev Row := List (String × Value)

/-- `row[k]`: `Value.vnull` doubles as `undefined` for an absent key. -/
def jsGet (r : Row) (k : String) : Value :=
  match r.find? (fun p => p.1 = k) with
  | some p => p.2
  | none => Value.vnull

/-- Canonical array-index property keys (`"0"`, `"1"`, …, below
2^32 - 1), which JS objects iterate first, in ascending numeric order. -/
def isArrayIndexKey (s : String) : Bool :=
  match s.data with
  | [] => false
  | c :: cs => allDigits (c :: cs) ∧ (c ≠ '0' ∨ cs = []) ∧ charsToNat (c :: cs) < 4294967295

/-- Code-unit lexicographic comparison — the default comparator of
`Array.prototype.sort()` (our characters are code points; identical on
the strings involved here). -/
def lexLeChars : List Char → List Char → Bool
  | [], _ => true
  | _ :: _, [] => false
  | a :: as, b :: bs =>
    if a.toNat < b.toNat then true
    else if b.toNat < a.toNat then false
    else lexLeChars as bs

def lexLe (a b : String) : Bool := lexLeChars a.data b.data

def lexRel (a b : String) : Prop := lexLe a b = true

instance : DecidableRel lexRel := fun a b => inferInstanceAs (Decidable (lexLe a b = true))

/-- `Object.keys` of an insertion-ordered dictionary: array-index keys
first in ascending numeric order, then the remaining keys in insertion
order. -/
def jsObjKeys {α : Type} (m : List (String × α)) : List String :=
  (List.insertionSort (fun a b => charsToNat a.data ≤ charsToNat b.data)
      ((m.map Prod.fst).filter isArrayIndexKey)) ++
    (m.map Prod.fst).filter (fun k => ! isArrayIndexKey k)

/-- `m[k] = (m[k] || 0) + d` on the aggregation dictionary: add to the
entry in place, or append a fresh key at the end. -/
def addEntry : List (String × Int) → String → Int → List (String × Int)
  | [], k, d => [(k, d)]
  | (k', v) :: rest, k, d =>
    if k' = k then (k', v + d) :: rest else (k', v) :: addEntry rest k d

/-- `m[k]`, with the formatter's `|| 0` built in (0 is falsy, so the
default coincides). -/
def lookupVal (m : List (String × Int)) (k : String) : Int :=
  match m with
  | [] => 0
  | (k', v) :: rest => if k' = k then v else lookupVal rest k

/-- The grouping key of the pie and simple branches: skip rows whose
`xAxis` value is null/undefined, otherwise the value's property-key
string. -/
def chartKey (x : String) (r : Row) : Option String :=
  if jsGet r x = Value.vnull then none else some (jsToString (jsGet r x))

/-- One fold of the aggregation loops: route each row through the key
function, adding its contribution (or skipping keyless rows). -/
def aggFold (key : Row → Option String) (contrib : Row → Int)
    (m : List (String × Int)) : List Row → List (String × Int)
  | [] => m
  | r :: rest =>
    match key r with
    | none => aggFold key contrib m rest
    | some k => aggFold key contrib (addEntry m k (contrib r)) rest

/-- `Number(row[yAxis]) || 1` guarded by
`yAxis && row[yAxis] !== null && row[yAxis] !== undefined`: a non-null
`yAxis` value coercing to a nonzero number contributes that number;
everything else (no `yAxis`, null, NaN, or 0) contributes 1. -/
def pieContribution (yGiven : Bool) (y : String) (r : Row) : Int :=
  if yGiven ∧ jsGet r y ≠ Value.vnull then
    match jsToNumber (jsGet r y) with
    | some v => if v = 0 then 1 else v
    | none => 1
  else 1

/-- `Number(row[yAxis]) || 0` of the simple bar/line branch when
`yAxis` is given (no null check there: `Number(null) = 0`), else the
count increment 1. -/
def simpleContribution (yGiven : Bool) (y : String) (r : Row) : Int :=
  if yGiven then (jsToNumber (jsGet r y)).getD 0 else 1

/-- `items.slice(0, limit)` with a possibly negative JS `limit`. -/
def jsSliceFrom0 (l : List Row) (e : Int) : List Row :=
  if e < 0 then l.take ((l.length : Int) + e).toNat else l.take e.toNat

/-- Chart payloads (`formattedData`), one constructor per shape the
route can build; colors and border styling are presentation constants
and not carried. -/
inductive ChartOut where
  | pie (labels : List String) (data : List Int)
  | scatter (label : String) (points : List (Value × Value))
  | grouped (labels : List Value) (datasets : List (String × List Int))
  | simple (label : String) (labels : List String) (data : List Int)
deriving DecidableEq

/-- Update-or-append on the outer dictionary of the groupBy branch. -/
def setEntry {α : Type} : List (String × α) → String → α → List (String × α)
  | [], k, v => [(k, v)]
  | (k', v') :: rest, k, v =>
    if k' = k then (k', v) :: rest else (k', v') :: setEntry rest k v

def lookupOpt {α : Type} : List (String × α) → String → Option α
  | [], _ => none
  | (k', v) :: rest, k => if k' = k then some v else lookupOpt rest k

/-- First-encounter deduplication (insertion order of a JS `Set`). -/
def firstDedup {α : Type} [DecidableEq α] (l : List α) : List α :=
  l.foldl (fun acc s => if s ∈ acc then acc else acc ++ [s]) []

/-- The bar/line/area branch with `groupBy`: a nested dictionary keyed
by `String(row[groupBy])` then `String(row[xAxis])` (no null skipping
here); labels are the distinct raw `xAxis` values sorted by their
string form, and each group's series aligns to them with 0 fill. -/
def groupedBranch (x y g : String) (yGiven : Bool) (rows : List Row) : ChartOut :=
  let grouped := rows.foldl (fun m r =>
    let gk := jsToString (jsGet r g)
    let xk := jsToString (jsGet r x)
    let inner := (lookupOpt m gk).getD []
    let d : Int := if yGiven ∧ jsGet r y ≠ Value.vnull then (jsToNumber (jsGet r y)).getD 0 else 1
    setEntry m gk (addEntry inner xk d)) []
  let allX := List.insertionSort (fun a b => lexLe (jsToString a) (jsToString b))
    (firstDedup (rows.map (fun r => jsGet r x)))
  ChartOut.grouped allX
    ((jsObjKeys grouped).map (fun gk =>
      (gk, allX.map (fun xv => lookupVal ((lookupOpt grouped gk).getD []) (jsToString xv)))))

/-- Embedding of the chart-data formatter
(`router.get('/:id/chart-data')`, after the document lookups): query
parameters are optional strings, the result is the formatted payload or
the 400-error message of the failed axis validation. -/
def formatChartData (rows : List Row)
    (chartTypeQ xAxisQ yAxisQ groupByQ limitQ : Option String) : Except String ChartOut :=
  let chartType := jsOrStr chartTypeQ "bar"
  let limit := jsOrElse (jsParseInt limitQ) 1000
  if jsFalsyStr xAxisQ then Except.error "xAxis parameter is required"
  else
    let xAxis := optStr xAxisQ
    let yAxis := optStr yAxisQ
    let yGiven := ! jsFalsyStr yAxisQ
    let chartData := jsSliceFrom0 rows limit
    if chartType = "pie" ∨ chartType = "doughnut" then
      let grouped := aggFold (chartKey xAxis) (pieContribution yGiven yAxis) [] chartData
      Except.ok (ChartOut.pie (jsObjKeys grouped)
        ((jsObjKeys grouped).map (lookupVal grouped)))
    else if chartType = "scatter" then
      if jsFalsyStr yAxisQ then Except.error "yAxis parameter is required for scatter charts"
      else Except.ok (ChartOut.scatter (yAxis ++ " vs " ++ xAxis)
        ((chartData.filter (fun r => jsGet r xAxis ≠ Value.vnull ∧ jsGet r yAxis ≠ Value.vnull)).map
          (fun r => (jsGet r xAxis, jsGet r yAxis))))
    else if ! jsFalsyStr groupByQ then
      Except.ok (groupedBranch xAxis yAxis (optStr groupByQ) yGiven chartData)
    else
      let aggregated := aggFold (chartKey xAxis) (simpleContribution yGiven yAxis) [] chartData
      let sortedKeys := List.insertionSort lexRel (jsObjKeys aggregated)
      Except.ok (ChartOut.simple (if yGiven then yAxis else "Count") sortedKeys
        (sortedKeys.map (lookupVal aggregated)))

lemma addEntry_keys (m : List (String × Int)) (k : String) (d : Int) :
    (addEntry m k d).map Prod.fst =
      if k ∈ m.map Prod.fst then m.map Prod.fst else m.map Prod.fst ++ [k] := by
  induction m with
  | nil => simp [addEntry]
  | cons p rest ih =>
    obtain ⟨k', v⟩ := p
    by_cases hk : k' = k
    · subst hk
      simp [addEntry]
    · simp only [addEntry, if_neg hk, List.map_cons, List.mem_cons, ih]
      by_cases hmem : k ∈ rest.map Prod.fst
      · rw [if_pos hmem, if_pos (Or.inr hmem)]
      · rw [if_neg hmem, if_neg (by
          intro hor
          rcases hor with h1 | h2
          · exact hk h1.symm
          · exact hmem h2)]
        simp

lemma lookupVal_addEntry_self (m : List (String × Int)) (k : String) (d : Int) :
    lookupVal (addEntry m k d) k = lookupVal m k + d := by
  induction m with
  | nil => simp [addEntry, lookupVal]
  | cons p rest ih =>
    obtain ⟨k', v⟩ := p
    by_cases hk : k' = k
    · subst hk
      simp [addEntry, lookupVal]
    · simp only [addEntry, if_neg hk, lookupVal, ih]

lemma lookupVal_addEntry_other (m : List (String × Int)) (k k' : String) (d : Int)
    (h : k' ≠ k) : lookupVal (addEntry m k d) k' = lookupVal m k' := by
  have hks : k ≠ k' := Ne.symm h
  induction m with
  | nil =>
    simp only [addEntry, lookupVal]
    rw [if_neg hks]
  | cons p rest ih =>
    obtain ⟨k'', v⟩ := p
    by_cases hk : k'' = k
    · subst hk
      simp only [addEntry, if_pos rfl, lookupVal]
      rw [if_neg hks, if_neg hks]
    · simp only [addEntry, if_neg hk, lookupVal]
      by_cases hk2 : k'' = k'
      · rw [if_pos hk2, if_pos hk2]
      · rw [if_neg hk2, if_neg hk2, ih]

lemma aggFold_keys (key : Row → Option String) (contrib : Row → Int) (rows : List Row) :
    ∀ m, (aggFold key contrib m rows).map Prod.fst =
      (rows.filterMap key).foldl
        (fun acc s => if s ∈ acc then acc else acc ++ [s]) (m.map Prod.fst) := by
  induction rows with
  | nil => intro m; rfl
  | cons r rest ih =>
    intro m
    cases hk : key r with
    | none => simp only [aggFold, hk, List.filterMap_cons, ih]
    | some k =>
      simp only [aggFold, hk, List.filterMap_cons, List.foldl_cons, ih, addEntry_keys]

lemma aggFold_lookup (key : Row → Option String) (contrib : Row → Int) (rows : List Row) :
    ∀ m k, lookupVal (aggFold key contrib m rows) k =
      lookupVal m k + ((rows.filter (fun r => key r = some k)).map contrib).sum := by
  induction rows with
  | nil => intro m k; simp [aggFold]
  | cons r rest ih =>
    intro m k
    cases hk : key r with
    | none =>
      have hne : ¬ (key r = some k) := by rw [hk]; simp
      simp only [aggFold, hk, List.filter_cons, ih]
      rw [if_neg (by simp [hne])]
    | some k' =>
      by_cases hkk : k' = k
      · subst hkk
        simp only [aggFold, hk, List.filter_cons]
        rw [if_pos (by simp [hk]), ih, lookupVal_addEntry_self, List.map_cons, List.sum_cons]
        ring
      · simp only [aggFold, hk, List.filter_cons]
        rw [if_neg (by simp [hk, hkk]), ih,
          lookupVal_addEntry_other _ _ _ _ (Ne.symm hkk)]

lemma firstDedup_sub {α : Type} [DecidableEq α] (l : List α) :
    ∀ (acc : List α) (a : α),
      a ∈ l.foldl (fun acc s => if s ∈ acc then acc else acc ++ [s]) acc →
        a ∈ acc ∨ a ∈ l := by
  induction l with
  | nil => intro acc a h; exact Or.inl h
  | cons x xs ih =>
    intro acc a h
    rw [List.foldl_cons] at h
    rcases ih _ a h with h1 | h2
    · by_cases hx : x ∈ acc
      · rw [if_pos hx] at h1
        exact Or.inl h1
      · rw [if_neg hx] at h1
        rcases List.mem_append.mp h1 with h3 | h4
        · exact Or.inl h3
        · rw [List.mem_singleton] at h4
          subst h4
          exact Or.inr (List.mem_cons_self _ _)
    · exact Or.inr (List.mem_cons_of_mem _ h2)

lemma mem_firstDedup {α : Type} [DecidableEq α] (l : List α) (a : α)
    (h : a ∈ firstDedup l) : a ∈ l := by
  rcases firstDedup_sub l [] a h with h1 | h2
  · simp at h1
  · exact h2

lemma jsObjKeys_no_index {α : Type} (m : List (String × α))
    (h : ∀ k ∈ m.map Prod.fst, isArrayIndexKey k = false) :
    jsObjKeys m = m.map Prod.fst := by
  unfold jsObjKeys
  rw [List.filter_eq_nil_iff.mpr (by
    intro k hk
    rw [h k hk]
    simp)]
  rw [List.filter_eq_self.mpr (by
    intro k hk
    rw [h k hk]
    simp)]
  rfl

lemma jsObjKeys_perm {α : Type} (m : List (String × α)) : (jsObjKeys m).Perm (m.map Prod.fst) := by
  unfold jsObjKeys
  refine List.Perm.trans (List.Perm.append_right _ (List.perm_insertionSort _ _)) ?_
  exact List.filter_append_perm _ _

def exceptIsOk : Except String ChartOut → Bool
  | Except.ok _ => true
  | Except.error _ => false

/-- C8: the chart-data formatter fails exactly when the `xAxis`
parameter is JS-falsy (absent or empty), or when the effective
chartType is `scatter` and `yAxis` is falsy; in the first case the
error names `xAxis`, in the second it names `yAxis`, and in every
other case a chart payload is produced. -/
theorem c8_missing_axis (rows : List Row) (ctq xq yq gq lq : Option String) :
    (jsFalsyStr xq = true →
      formatChartData rows ctq xq yq gq lq = Except.error "xAxis parameter is required") ∧
    (jsOrStr ctq "bar" = "scatter" → jsFalsyStr xq = false → jsFalsyStr yq = true →
      formatChartData rows ctq xq yq gq lq =
        Except.error "yAxis parameter is required for scatter charts") ∧
    (exceptIsOk (formatChartData rows ctq xq yq gq lq) = true ↔
      ¬ (jsFalsyStr xq = true ∨ (jsOrStr ctq "bar" = "scatter" ∧ jsFalsyStr yq = true))) := by
  by_cases hx : jsFalsyStr xq = true
  · refine ⟨fun _ => by simp [formatChartData, hx], fun _ hx' => absurd hx (by simp [hx']), ?_⟩
    simp [formatChartData, hx, exceptIsOk]
  · have hx' : jsFalsyStr xq = false := by revert hx; cases jsFalsyStr xq <;> simp
    refine ⟨fun h => absurd h hx, ?_, ?_⟩
    · intro hsc _ hy
      have hpd : ¬ (jsOrStr ctq "bar" = "pie" ∨ jsOrStr ctq "bar" = "doughnut") := by
        rw [hsc]; simp
      simp [formatChartData, hx', hpd, hsc, hy]
    · by_cases hsc : jsOrStr ctq "bar" = "scatter"
      · have hpd : ¬ (jsOrStr ctq "bar" = "pie" ∨ jsOrStr ctq "bar" = "doughnut") := by
          rw [hsc]; simp
        by_cases hy : jsFalsyStr yq = true
        · simp [formatChartData, hx', hpd, hsc, hy, exceptIsOk]
        · simp [formatChartData, hx', hpd, hsc, hy, exceptIsOk]
      · by_cases hpd : (jsOrStr ctq "bar" = "pie" ∨ jsOrStr ctq "bar" = "doughnut")
        · simp [formatChartData, hx', hpd, hsc, exceptIsOk]
        · by_cases hg : jsFalsyStr gq = true
          · simp [formatChartData, hx', hpd, hsc, hg, exceptIsOk]
          · simp [formatChartData, hx', hpd, hsc, hg, exceptIsOk]

lemma lexLeChars_total' : ∀ a b : List Char, lexLeChars a b = true ∨ lexLeChars b a = true := by
  intro a
  induction a with
  | nil => intro b; exact Or.inl rfl
  | cons x xs ih =>
    intro b
    cases b with
    | nil => exact Or.inr rfl
    | cons y ys =>
      by_cases h1 : x.toNat < y.toNat
      · left
        simp only [lexLeChars]
        rw [if_pos h1]
      · by_cases h2 : y.toNat < x.toNat
        · right
          simp only [lexLeChars]
          rw [if_pos h2]
        · rcases ih ys with h3 | h3
          · left
            simp only [lexLeChars]
            rw [if_neg h1, if_neg h2]
            exact h3
          · right
            simp only [lexLeChars]
            rw [if_neg h2, if_neg h1]
            exact h3

lemma lexLeChars_head (x y : Char) (xs ys : List Char)
    (h : lexLeChars (x :: xs) (y :: ys) = true) :
    x.toNat < y.toNat ∨ (x.toNat = y.toNat ∧ lexLeChars xs ys = true) := by
  simp only [lexLeChars] at h
  by_cases h1 : x.toNat < y.toNat
  · exact Or.inl h1
  · by_cases h2 : y.toNat < x.toNat
    · rw [if_neg h1, if_pos h2] at h
      exact absurd h (by simp)
    · right
      refine ⟨by omega, ?_⟩
      rwa [if_neg h1, if_neg h2] at h

lemma lexLeChars_trans' : ∀ a b c : List Char,
    lexLeChars a b = true → lexLeChars b c = true → lexLeChars a c = true := by
  intro a
  induction a with
  | nil => intro b c _ _; rfl
  | cons x xs ih =>
    intro b c hab hbc
    cases b with
    | nil => simp [lexLeChars] at hab
    | cons y ys =>
      cases c with
      | nil => simp [lexLeChars] at hbc
      | cons z zs =>
        rcases lexLeChars_head x y xs ys hab with h1 | ⟨h1, h1r⟩ <;>
          rcases lexLeChars_head y z ys zs hbc with h2 | ⟨h2, h2r⟩
        · simp only [lexLeChars]
          rw [if_pos (by omega)]
        · simp only [lexLeChars]
          rw [if_pos (by omega)]
        · simp only [lexLeChars]
          rw [if_pos (by omega)]
        · simp only [lexLeChars]
          rw [if_neg (by omega), if_neg (by omega)]
          exact ih ys zs h1r h2r

instance : IsTotal String lexRel :=
  ⟨fun a b => by
    unfold lexRel lexLe
    exact lexLeChars_total' a.data b.data⟩

instance : IsTrans String lexRel :=
  ⟨fun a b c hab hbc => by
    unfold lexRel lexLe at hab hbc ⊢
    exact lexLeChars_trans' a.data b.data c.data hab hbc⟩

lemma sum_map_one {α : Type} (l : List α) : (l.map (fun _ => (1 : Int))).sum = l.length := by
  induction l with
  | nil => rfl
  | cons x xs ih =>
    simp [ih]
    omega


/-- C1 (amended): for chartType pie/doughnut the formatter groups the
truncated rows by their `xAxis` property-key string, skipping
null/undefined `xAxis` values; labels are the distinct keys in
first-encountered order (provided no key is an integer-like property
key, which JS objects reorder); each group's value is the sum over its
rows of `Number(row[yAxis]) || 1` — the coerced `yAxis` value when it
is a nonzero number, else 1 (so non-numeric, zero and null `yAxis`
values each contribute 1; with `yAxis` absent every row contributes 1,
i.e. the group count).  Scenario: Region/Amount rows North 500,
South 300, North 200 give labels [North, South] and data [700, 300]. -/
theorem c1_pie_grouping :
    (∀ (rows : List Row) (ctq : Option String) (x : String) (yq gq lq : Option String),
      x ≠ "" →
      (jsOrStr ctq "bar" = "pie" ∨ jsOrStr ctq "bar" = "doughnut") →
      (∀ k ∈ (jsSliceFrom0 rows (jsOrElse (jsParseInt lq) 1000)).filterMap (chartKey x),
        isArrayIndexKey k = false) →
      formatChartData rows ctq (some x) yq gq lq = Except.ok (ChartOut.pie
        (firstDedup ((jsSliceFrom0 rows (jsOrElse (jsParseInt lq) 1000)).filterMap (chartKey x)))
        ((firstDedup ((jsSliceFrom0 rows (jsOrElse (jsParseInt lq) 1000)).filterMap
            (chartKey x))).map
          (fun k =>
            (((jsSliceFrom0 rows (jsOrElse (jsParseInt lq) 1000)).filter
                (fun r => chartKey x r = some k)).map
              (pieContribution (! jsFalsyStr yq) (optStr yq))).sum)))) ∧
    formatChartData
      [[("Region", Value.vstr "North"), ("Amount", Value.vnum 500)],
       [("Region", Value.vstr "South"), ("Amount", Value.vnum 300)],
       [("Region", Value.vstr "North"), ("Amount", Value.vnum 200)]]
      (some "pie") (some "Region") (some "Amount") none none =
      Except.ok (ChartOut.pie ["North", "South"] [700, 300]) := by
  refine ⟨fun rows ctq x yq gq lq hx hct hidx => ?_, by rfl⟩
  have hfx : jsFalsyStr (some x) = false := by simp [jsFalsyStr, hx]
  simp only [formatChartData, hfx, Bool.false_eq_true, if_false]
  rw [show optStr (some x) = x from rfl, if_pos hct]
  have hkeys : (aggFold (chartKey x) (pieContribution (! jsFalsyStr yq) (optStr yq)) []
      (jsSliceFrom0 rows (jsOrElse (jsParseInt lq) 1000))).map Prod.fst =
      firstDedup ((jsSliceFrom0 rows (jsOrElse (jsParseInt lq) 1000)).filterMap (chartKey x)) := by
    rw [aggFold_keys]
    rfl
  have hno : ∀ k ∈ (aggFold (chartKey x) (pieContribution (! jsFalsyStr yq) (optStr yq)) []
      (jsSliceFrom0 rows (jsOrElse (jsParseInt lq) 1000))).map Prod.fst,
      isArrayIndexKey k = false := by
    intro k hk
    rw [hkeys] at hk
    exact hidx k (mem_firstDedup _ _ hk)
  have hobj := jsObjKeys_no_index _ hno
  have hfun : lookupVal (aggFold (chartKey x)
      (pieContribution (! jsFalsyStr yq) (optStr yq)) []
      (jsSliceFrom0 rows (jsOrElse (jsParseInt lq) 1000))) =
      (fun k =>
        (((jsSliceFrom0 rows (jsOrElse (jsParseInt lq) 1000)).filter
            (fun r => chartKey x r = some k)).map
          (pieContribution (! jsFalsyStr yq) (optStr yq))).sum) := by
    funext k
    rw [aggFold_lookup]
    simp [lookupVal]
  rw [hobj, hkeys, hfun]


/-- C2 (amended): for chartType bar/line/area (and any type other
than pie, doughnut and scatter) without `groupBy`, the labels are the
distinct property-key strings of the non-null `xAxis` values of the
truncated rows, sorted ascending in code-unit lexicographic order (the
default JS sort on the stringified keys — not numeric order for
numeric values); the aligned data entry is the group's sum of
`Number(row[yAxis]) || 0` when `yAxis` is given, else the group's row
count; the dataset label is `yAxis` or `Count`. -/
theorem c2_simple_bar_sorted (rows : List Row) (ctq : Option String) (x : String)
    (yq gq lq : Option String) (hx : x ≠ "")
    (hpd : ¬ (jsOrStr ctq "bar" = "pie" ∨ jsOrStr ctq "bar" = "doughnut"))
    (hsc : jsOrStr ctq "bar" ≠ "scatter")
    (hgq : jsFalsyStr gq = true) :
    ∃ labels : List String,
      formatChartData rows ctq (some x) yq gq lq = Except.ok (ChartOut.simple
        (if (! jsFalsyStr yq) = true then optStr yq else "Count") labels
        (labels.map (fun k =>
          (((jsSliceFrom0 rows (jsOrElse (jsParseInt lq) 1000)).filter
              (fun r => chartKey x r = some k)).map
            (simpleContribution (! jsFalsyStr yq) (optStr yq))).sum))) ∧
      labels.Perm (firstDedup ((jsSliceFrom0 rows (jsOrElse (jsParseInt lq) 1000)).filterMap
        (chartKey x))) ∧
      List.Sorted lexRel labels ∧
      (jsFalsyStr yq = true →
        ∀ k : String, (((jsSliceFrom0 rows (jsOrElse (jsParseInt lq) 1000)).filter
            (fun r => chartKey x r = some k)).map
          (simpleContribution (! jsFalsyStr yq) (optStr yq))).sum =
          (((jsSliceFrom0 rows (jsOrElse (jsParseInt lq) 1000)).filter
            (fun r => chartKey x r = some k)).length : Int)) := by
  have hfx : jsFalsyStr (some x) = false := by simp [jsFalsyStr, hx]
  have hgb : (! jsFalsyStr gq) = false := by rw [hgq]; rfl
  simp only [formatChartData, hfx, Bool.false_eq_true, if_false]
  rw [show optStr (some x) = x from rfl, if_neg hpd, if_neg hsc, hgb]
  simp only [Bool.false_eq_true, if_false]
  have hkeys : (aggFold (chartKey x) (simpleContribution (! jsFalsyStr yq) (optStr yq)) []
      (jsSliceFrom0 rows (jsOrElse (jsParseInt lq) 1000))).map Prod.fst =
      firstDedup ((jsSliceFrom0 rows (jsOrElse (jsParseInt lq) 1000)).filterMap (chartKey x)) := by
    rw [aggFold_keys]
    rfl
  have hfun : lookupVal (aggFold (chartKey x)
      (simpleContribution (! jsFalsyStr yq) (optStr yq)) []
      (jsSliceFrom0 rows (jsOrElse (jsParseInt lq) 1000))) =
      (fun k =>
        (((jsSliceFrom0 rows (jsOrElse (jsParseInt lq) 1000)).filter
            (fun r => chartKey x r = some k)).map
          (simpleContribution (! jsFalsyStr yq) (optStr yq))).sum) := by
    funext k
    rw [aggFold_lookup]
    simp [lookupVal]
  refine ⟨List.insertionSort lexRel (jsObjKeys (aggFold (chartKey x)
      (simpleContribution (! jsFalsyStr yq) (optStr yq)) []
      (jsSliceFrom0 rows (jsOrElse (jsParseInt lq) 1000)))), ?_, ?_, ?_, ?_⟩
  · rw [hfun]
  · refine List.Perm.trans (List.perm_insertionSort _ _) ?_
    refine List.Perm.trans (jsObjKeys_perm _) ?_
    rw [hkeys]
  · exact List.sorted_insertionSort lexRel _
  · intro hy k
    have hcb : (! jsFalsyStr yq) = false := by rw [hy]; rfl
    rw [hcb]
    have : simpleContribution false (optStr yq) = (fun _ => (1 : Int)) := by
      funext r
      simp [simpleContribution]
    rw [this, sum_map_one]

/-- C3 witness: the theorem instantiated at the query string "-3". -/
theorem c3_pagination_defaults_witness :
    ((-3 : Int) ≠ 0) ∧ jsParseInt (some "-3") = some (-3) ∧
      pageParam (some "-3") = -3 ∧ dataLimitParam (some "-3") = -3 ∧
      tableLimitParam (some "-3") = -3 :=
  ⟨by decide, by decide,
    (c3_pagination_defaults (some "-3")).2.2.2 (-3) (by decide) (by decide)⟩

/-- C8 witness: a scatter request with an `xAxis` but no `yAxis` fails
with the error naming `yAxis`. -/
theorem c8_missing_axis_witness :
    jsOrStr (some "scatter") "bar" = "scatter" ∧ jsFalsyStr (some "x") = false ∧
      jsFalsyStr (none : Option String) = true ∧
      formatChartData [] (some "scatter") (some "x") none none none =
        Except.error "yAxis parameter is required for scatter charts" :=
  ⟨by decide, by decide, by decide,
    (c8_missing_axis [] (some "scatter") (some "x") none none none).2.1 (by decide) (by decide)
      (by decide)⟩

/-- C1 counterexample to the original claim: with `yAxis` given and a
`yAxis` value whose numeric coercion is 0, the group's value is 1
(`Number(0) || 1`), not the claimed sum 0 of coerced values. -/
theorem c1_pie_zero_counterexample :
    formatChartData [[("Region", Value.vstr "North"), ("Amount", Value.vnum 0)]]
        (some "pie") (some "Region") (some "Amount") none none =
      Except.ok (ChartOut.pie ["North"] [1]) ∧
    jsToNumber (jsGet [("Region", Value.vstr "North"), ("Amount", Value.vnum 0)] "Amount") =
      some 0 ∧
    (1 : Int) ≠ 0 :=
  ⟨rfl, rfl, by decide⟩

/-- C1 witness: the amended theorem instantiated at the Region/Amount
scenario rows, all hypotheses discharged by evaluation. -/
theorem c1_pie_grouping_witness :
    (("Region" : String) ≠ "") ∧
    (jsOrStr (some "pie") "bar" = "pie" ∨ jsOrStr (some "pie") "bar" = "doughnut") ∧
    (∀ k ∈ (jsSliceFrom0
        [[("Region", Value.vstr "North"), ("Amount", Value.vnum 500)],
         [("Region", Value.vstr "South"), ("Amount", Value.vnum 300)],
         [("Region", Value.vstr "North"), ("Amount", Value.vnum 200)]]
        (jsOrElse (jsParseInt none) 1000)).filterMap (chartKey "Region"),
      isArrayIndexKey k = false) ∧
    formatChartData
        [[("Region", Value.vstr "North"), ("Amount", Value.vnum 500)],
         [("Region", Value.vstr "South"), ("Amount", Value.vnum 300)],
         [("Region", Value.vstr "North"), ("Amount", Value.vnum 200)]]
        (some "pie") (some "Region") (some "Amount") none none =
      Except.ok (ChartOut.pie
        (firstDedup ((jsSliceFrom0
          [[("Region", Value.vstr "North"), ("Amount", Value.vnum 500)],
           [("Region", Value.vstr "South"), ("Amount", Value.vnum 300)],
           [("Region", Value.vstr "North"), ("Amount", Value.vnum 200)]]
          (jsOrElse (jsParseInt none) 1000)).filterMap (chartKey "Region")))
        ((firstDedup ((jsSliceFrom0
            [[("Region", Value.vstr "North"), ("Amount", Value.vnum 500)],
             [("Region", Value.vstr "South"), ("Amount", Value.vnum 300)],
             [("Region", Value.vstr "North"), ("Amount", Value.vnum 200)]]
            (jsOrElse (jsParseInt none) 1000)).filterMap (chartKey "Region"))).map
          (fun k =>
            (((jsSliceFrom0
                [[("Region", Value.vstr "North"), ("Amount", Value.vnum 500)],
                 [("Region", Value.vstr "South"), ("Amount", Value.vnum 300)],
                 [("Region", Value.vstr "North"), ("Amount", Value.vnum 200)]]
                (jsOrElse (jsParseInt none) 1000)).filter
                (fun r => chartKey "Region" r = some k)).map
              (pieContribution (! jsFalsyStr (some "Amount")) (optStr (some "Amount")))).sum))) :=
  ⟨by decide, by decide, by decide,
    c1_pie_grouping.1
      [[("Region", Value.vstr "North"), ("Amount", Value.vnum 500)],
       [("Region", Value.vstr "South"), ("Amount", Value.vnum 300)],
       [("Region", Value.vstr "North"), ("Amount", Value.vnum 200)]]
      (some "pie") "Region" (some "Amount") none none (by decide) (by decide) (by decide)⟩

/-- C2 counterexample to the original claim: numeric `xAxis` values 10
and 2 sort as the strings "10" < "2" (lexicographically), not in
numeric order [2, 10]. -/
theorem c2_numeric_labels_counterexample :
    formatChartData [[("n", Value.vnum 10)], [("n", Value.vnum 2)]]
        (some "bar") (some "n") none none none =
      Except.ok (ChartOut.simple "Count" ["10", "2"] [1, 1]) ∧
    (["10", "2"] : List String) ≠ ["2", "10"] :=
  ⟨rfl, by decide⟩

/-- C2 witness: the amended theorem instantiated at a one-row bar
request, hypotheses discharged by evaluation. -/
theorem c2_simple_bar_sorted_witness :
    (("n" : String) ≠ "") ∧
    (¬ (jsOrStr (some "bar") "bar" = "pie" ∨ jsOrStr (some "bar") "bar" = "doughnut")) ∧
    (jsOrStr (some "bar") "bar" ≠ "scatter") ∧
    jsFalsyStr (none : Option String) = true ∧
    (∃ labels : List String,
      formatChartData [[("n", Value.vstr "a")]] (some "bar") (some "n") none none none =
        Except.ok (ChartOut.simple
          (if (! jsFalsyStr (none : Option String)) = true then optStr none else "Count") labels
          (labels.map (fun k =>
            (((jsSliceFrom0 [[("n", Value.vstr "a")]] (jsOrElse (jsParseInt none) 1000)).filter
                (fun r => chartKey "n" r = some k)).map
              (simpleContribution (! jsFalsyStr (none : Option String)) (optStr none))).sum))) ∧
      labels.Perm (firstDedup ((jsSliceFrom0 [[("n", Value.vstr "a")]]
        (jsOrElse (jsParseInt none) 1000)).filterMap (chartKey "n"))) ∧
      List.Sorted lexRel labels ∧
      (jsFalsyStr (none : Option String) = true →
        ∀ k : String, (((jsSliceFrom0 [[("n", Value.vstr "a")]]
            (jsOrElse (jsParseInt none) 1000)).filter
            (fun r => chartKey "n" r = some k)).map
          (simpleContribution (! jsFalsyStr (none : Option String)) (optStr none))).sum =
          (((jsSliceFrom0 [[("n", Value.vstr "a")]] (jsOrElse (jsParseInt none) 1000)).filter
            (fun r => chartKey "n" r = some k)).length : Int))) :=
  ⟨by decide, by decide, by decide, by decide,
    c2_simple_bar_sorted [[("n", Value.vstr "a")]] (some "bar") "n" none none none
      (by decide) (by decide) (by decide) (by decide)⟩

/-- Decode a digit string back to its value (left inverse of
`decChars`, used to prove decimal representations injective). -/
def chValue (l : List Char) : Nat := l.foldl (fun a c => a * 10 + (c.toNat - 48)) 0

lemma chValue_append_digit (l : List Char) (c : Char) :
    chValue (l ++ [c]) = chValue l * 10 + (c.toNat - 48) := by
  unfold chValue
  rw [List.foldl_append]
  rfl

lemma chValue_decChars : ∀ fuel n, n < fuel → chValue (decChars fuel n) = n := by
  intro fuel
  induction fuel with
  | zero => intro n h; omega
  | succ f ih =>
    intro n h
    by_cases h10 : n < 10
    · simp only [decChars, if_pos h10]
      unfold chValue
      simp only [List.foldl_cons, List.foldl_nil]
      rw [charToNat_ofNat_of_lt _ (by omega)]
      omega
    · simp only [decChars, if_neg h10]
      rw [chValue_append_digit]
      have hd : n / 10 < f := by omega
      rw [ih _ hd, charToNat_ofNat_of_lt _ (by omega)]
      omega

lemma chValue_decStr (n : Nat) : chValue (decStr n).data = n := by
  unfold decStr
  exact chValue_decChars (n + 1) n (by omega)

lemma decStr_injective {m n : Nat} (h : decStr m = decStr n) : m = n := by
  have h2 := congrArg (fun s => chValue s.data) h
  simpa [chValue_decStr] using h2

lemma decChars_ne_nil (fuel n : Nat) : decChars (fuel + 1) n ≠ [] := by
  simp only [decChars]
  split
  · simp
  · simp

/-- `${cleanName}_${counter}` — the collision-suffix loop's candidate
names: the clean base itself, then `base_1`, `base_2`, …. -/
def candidate (base : String) : Nat → String
  | 0 => base
  | k + 1 => base ++ "_" ++ decStr (k + 1)

lemma candidate_injective (base : String) : ∀ {i j : Nat}, candidate base i = candidate base j → i = j := by
  have hlen : ∀ k, (candidate base (k + 1)).length = base.length + 1 + (decStr (k + 1)).length := by
    intro k
    simp only [candidate]
    rw [String.length_append, String.length_append]
    rfl
  have hdpos : ∀ k : Nat, 0 < (decStr (k + 1)).length := by
    intro k
    unfold decStr
    have := decChars_ne_nil (k + 1) (k + 1)
    have h2 : (String.mk (decChars (k + 2) (k + 1))).length = (decChars (k + 2) (k + 1)).length := rfl
    rw [h2]
    cases hc : decChars (k + 2) (k + 1) with
    | nil => exact absurd hc (decChars_ne_nil (k + 1) (k + 1))
    | cons a l => simp
  intro i j h
  match i, j with
  | 0, 0 => rfl
  | 0, k + 1 =>
    exfalso
    have := congrArg String.length h
    rw [hlen k] at this
    simp only [candidate] at this
    have := hdpos k
    omega
  | k + 1, 0 =>
    exfalso
    have := congrArg String.length h
    rw [hlen k] at this
    simp only [candidate] at this
    have := hdpos k
    omega
  | a + 1, b + 1 =>
    simp only [candidate] at h
    have hd := congrArg String.data h
    rw [String.data_append, String.data_append, String.data_append, String.data_append] at hd
    have h2 : (decStr (a + 1)).data = (decStr (b + 1)).data := List.append_cancel_left hd
    have h4 : decStr (a + 1) = decStr (b + 1) := String.ext h2
    have := decStr_injective h4
    omega

/-- `while (cleanToOriginalMap[uniqueCleanName]) …` — a JS property
read is truthy when the key is present with a nonempty value (the
values stored are original header strings). -/
def jsTruthyLookup (m : List (String × String)) (k : String) : Bool :=
  match lookupOpt m k with
  | some v => decide (v ≠ "")
  | none => false

/-- The suffix-probing loop, with explicit fuel (the loop always stops
within `m.length + 1` probes because the candidates are distinct and
the dictionary has at most `m.length` keys). -/
def findFreeAux (m : List (String × String)) (base : String) : Nat → Nat → Nat
  | 0, k => k
  | fuel + 1, k =>
    if jsTruthyLookup m (candidate base k) then findFreeAux m base fuel (k + 1) else k

/-- The unique clean name chosen for a header whose clean base name is
`base`, given the map of already-assigned names. -/
def uniqueCleanName (m : List (String × String)) (base : String) : String :=
  candidate base (findFreeAux m base (m.length + 1) 0)

lemma lookupOpt_some_mem {α : Type} (m : List (String × α)) (k : String) (v : α)
    (h : lookupOpt m k = some v) : (k, v) ∈ m ∧ k ∈ m.map Prod.fst := by
  induction m with
  | nil => simp [lookupOpt] at h
  | cons p rest ih =>
    obtain ⟨k', v'⟩ := p
    by_cases hk : k' = k
    · subst hk
      simp only [lookupOpt, eq_self_iff_true, if_true, Option.some.injEq] at h
      subst h
      exact ⟨List.mem_cons_self _ _, by simp⟩
    · simp only [lookupOpt, if_neg hk] at h
      obtain ⟨h1, h2⟩ := ih h
      exact ⟨List.mem_cons_of_mem _ h1, by simp [h2]⟩

lemma lookupOpt_none_not_mem {α : Type} (m : List (String × α)) (k : String)
    (h : lookupOpt m k = none) : k ∉ m.map Prod.fst := by
  induction m with
  | nil => simp
  | cons p rest ih =>
    obtain ⟨k', v'⟩ := p
    by_cases hk : k' = k
    · subst hk
      simp [lookupOpt] at h
    · simp only [lookupOpt, if_neg hk] at h
      simp only [List.map_cons, List.mem_cons]
      rintro (h1 | h2)
      · exact hk h1.symm
      · exact ih h h2

lemma jsTruthyLookup_true_mem (m : List (String × String)) (k : String)
    (h : jsTruthyLookup m k = true) : k ∈ m.map Prod.fst := by
  unfold jsTruthyLookup at h
  cases hl : lookupOpt m k with
  | none => rw [hl] at h; simp at h
  | some v => exact (lookupOpt_some_mem m k v hl).2

lemma jsTruthyLookup_of_mem_nonempty (m : List (String × String)) (k : String)
    (hI : ∀ p ∈ m, p.2 ≠ "") (h : k ∈ m.map Prod.fst) : jsTruthyLookup m k = true := by
  unfold jsTruthyLookup
  cases hl : lookupOpt m k with
  | none => exact absurd h (lookupOpt_none_not_mem m k hl)
  | some v =>
    have := hI _ (lookupOpt_some_mem m k v hl).1
    simp [this]

lemma findFreeAux_spec (m : List (String × String)) (base : String) :
    ∀ fuel k, (∃ j, j < fuel ∧ jsTruthyLookup m (candidate base (k + j)) = false) →
      jsTruthyLookup m (candidate base (findFreeAux m base fuel k)) = false ∧
      k ≤ findFreeAux m base fuel k ∧
      ∀ i, k ≤ i → i < findFreeAux m base fuel k →
        jsTruthyLookup m (candidate base i) = true := by
  intro fuel
  induction fuel with
  | zero => intro k h; obtain ⟨j, hj, _⟩ := h; omega
  | succ f ih =>
    intro k h
    by_cases hc : jsTruthyLookup m (candidate base k) = true
    · have hrec : ∃ j, j < f ∧ jsTruthyLookup m (candidate base (k + 1 + j)) = false := by
        obtain ⟨j, hj, hfree⟩ := h
        cases j with
        | zero =>
          rw [Nat.add_zero] at hfree
          rw [hc] at hfree
          exact absurd hfree (by simp)
        | succ j' =>
          refine ⟨j', by omega, ?_⟩
          have he : k + 1 + j' = k + (j' + 1) := by omega
          rw [he]
          exact hfree
      obtain ⟨h1, h2, h3⟩ := ih (k + 1) hrec
      have hstep : findFreeAux m base (f + 1) k = findFreeAux m base f (k + 1) := by
        simp only [findFreeAux, if_pos hc]
      rw [hstep]
      refine ⟨h1, by omega, ?_⟩
      intro i hik hires
      by_cases hik1 : k + 1 ≤ i
      · exact h3 i hik1 hires
      · have : i = k := by omega
        rw [this]
        exact hc
    · have hc' : jsTruthyLookup m (candidate base k) = false := by
        revert hc; cases jsTruthyLookup m (candidate base k) <;> simp
      have hstep : findFreeAux m base (f + 1) k = k := by
        simp only [findFreeAux, hc']
        simp
      rw [hstep]
      exact ⟨hc', le_refl _, fun i h1 h2 => by omega⟩

lemma exists_free_candidate (m : List (String × String)) (base : String) :
    ∃ j, j < m.length + 1 ∧ jsTruthyLookup m (candidate base j) = false := by
  by_contra hcon
  push_neg at hcon
  have hall : ∀ j < m.length + 1, jsTruthyLookup m (candidate base j) = true := by
    intro j hj
    have := hcon j hj
    revert this
    cases jsTruthyLookup m (candidate base j) <;> simp
  have hsub : ((List.range (m.length + 1)).map (candidate base)) ⊆ m.map Prod.fst := by
    intro a ha
    rw [List.mem_map] at ha
    obtain ⟨j, hj, rfl⟩ := ha
    rw [List.mem_range] at hj
    exact jsTruthyLookup_true_mem m _ (hall j hj)
  have hinj : Function.Injective (candidate base) := fun a b hab => candidate_injective base hab
  have hnd : ((List.range (m.length + 1)).map (candidate base)).Nodup :=
    (List.nodup_range _).map hinj
  have hlen := (List.subperm_of_subset hnd hsub).length_le
  rw [List.length_map, List.length_range, List.length_map] at hlen
  omega

/-- The chosen name is free in the map, and it is the first free
candidate: every earlier candidate is already (truthily) taken. -/
lemma uniqueCleanName_spec (m : List (String × String)) (base : String) :
    ∃ k, uniqueCleanName m base = candidate base k ∧
      jsTruthyLookup m (candidate base k) = false ∧
      ∀ j < k, jsTruthyLookup m (candidate base j) = true := by
  obtain ⟨j, hj, hfree⟩ := exists_free_candidate m base
  obtain ⟨h1, _, h3⟩ := findFreeAux_spec m base (m.length + 1) 0 ⟨j, hj, by simpa using hfree⟩
  exact ⟨findFreeAux m base (m.length + 1) 0, rfl, h1, fun i hi => h3 i (by omega) hi⟩

/-- A column descriptor (the `statistics` record carries no
information relevant to name uniqueness or row re-keying and is
embedded separately as `calculateStatistics`). -/
structure ColumnRec where
  name : String
  originalName : String
  dataType : String
deriving DecidableEq

/-- The per-header loop of `processExcelFile`: clean the header, make
the clean name unique against `cleanToOriginalMap`, record the mapping
`uniqueCleanName -> originalCol`, and emit the column descriptor. -/
def buildColumns (dp : String → Bool) (columnData : String → List Value) :
    List String → List (String × String) → List ColumnRec × List (String × String)
  | [], m => ([], m)
  | h :: hs, m =>
    let name := uniqueCleanName m (cleanColumnName h)
    let rest := buildColumns dp columnData hs (setEntry m name h)
    ({ name := name, originalName := h, dataType := inferDataType dp (columnData h) } :: rest.1,
      rest.2)

/-- Re-key one row: `for (const cleanName in cleanToOriginalMap)
newRow[cleanName] = row[originalName]` — clean names are never
integer-like property keys (they start with a letter), so `for..in`
iterates the map in insertion order. -/
def transformRow (m : List (String × String)) (r : Row) : Row :=
  m.map (fun p => (p.1, jsGet r p.2))

/-- A processed sheet (the fields the claims address; the summary
block of the source is derived data over the same columns). -/
structure ProcessedSheet where
  columns : List ColumnRec
  data : List Row
  rowCount : Nat
deriving DecidableEq

/-- Embedding of `processExcelFile` from the parsed row objects
(`jsonData`) onward.  The XLSX parse itself is the external `xlsx`
library; per the spec (§4.4 step 1) it yields one object per data row
with one key per header (`defval: null` fills missing cells), headers
taken from `Object.keys(jsonData[0])`. -/
def processSheetRows (dp : String → Bool) (jsonData : List Row) : ProcessedSheet :=
  match jsonData with
  | [] => { columns := [], data := [], rowCount := 0 }
  | r0 :: rest =>
    let originalColumns := r0.map Prod.fst
    let columnData := fun col => (r0 :: rest).map (fun r => jsGet r col)
    let bc := buildColumns dp columnData originalColumns []
    { columns := bc.1,
      data := (r0 :: rest).map (transformRow bc.2),
      rowCount := (r0 :: rest).length }

lemma setEntry_not_mem {α : Type} (m : List (String × α)) (k : String) (v : α)
    (h : k ∉ m.map Prod.fst) : setEntry m k v = m ++ [(k, v)] := by
  induction m with
  | nil => rfl
  | cons p rest ih =>
    obtain ⟨k', v'⟩ := p
    simp only [List.map_cons, List.mem_cons] at h
    push_neg at h
    have hne : ¬ (k' = k) := fun he => h.1 he.symm
    simp only [setEntry, if_neg hne, List.cons_append]
    rw [ih h.2]

lemma buildColumns_spec (dp : String → Bool) (columnData : String → List Value) :
    ∀ (hs : List String) (m : List (String × String)),
      (∀ p ∈ m, p.2 ≠ "") → (∀ h ∈ hs, h ≠ "") →
      ((buildColumns dp columnData hs m).1.map (fun c => c.name)).Nodup ∧
      (∀ n ∈ (buildColumns dp columnData hs m).1.map (fun c => c.name), n ∉ m.map Prod.fst) ∧
      (buildColumns dp columnData hs m).2 =
        m ++ ((buildColumns dp columnData hs m).1.map (fun c => (c.name, c.originalName))) ∧
      (buildColumns dp columnData hs m).1.map (fun c => c.originalName) = hs := by
  intro hs
  induction hs with
  | nil =>
    intro m hI hh
    refine ⟨?_, ?_, ?_, ?_⟩ <;> simp [buildColumns]
  | cons h hs ih =>
    intro m hI hh
    have hh1 : h ≠ "" := hh h (List.mem_cons_self _ _)
    have hhs : ∀ x ∈ hs, x ≠ "" := fun x hx => hh x (List.mem_cons_of_mem _ hx)
    obtain ⟨k, hk, hkfree, _⟩ := uniqueCleanName_spec m (cleanColumnName h)
    have hfresh : uniqueCleanName m (cleanColumnName h) ∉ m.map Prod.fst := by
      rw [hk]
      intro hmem
      rw [jsTruthyLookup_of_mem_nonempty m _ hI hmem] at hkfree
      exact absurd hkfree (by simp)
    have hset : setEntry m (uniqueCleanName m (cleanColumnName h)) h =
        m ++ [(uniqueCleanName m (cleanColumnName h), h)] := setEntry_not_mem _ _ _ hfresh
    have hI' : ∀ p ∈ setEntry m (uniqueCleanName m (cleanColumnName h)) h, p.2 ≠ "" := by
      rw [hset]
      intro p hp
      rcases List.mem_append.mp hp with h1 | h2
      · exact hI p h1
      · rw [List.mem_singleton] at h2
        subst h2
        exact hh1
    obtain ⟨ihnd, ihnotin, ihmap, ihorig⟩ :=
      ih (setEntry m (uniqueCleanName m (cleanColumnName h)) h) hI' hhs
    have hkeys' : (setEntry m (uniqueCleanName m (cleanColumnName h)) h).map Prod.fst =
        m.map Prod.fst ++ [uniqueCleanName m (cleanColumnName h)] := by
      rw [hset, List.map_append]
      rfl
    refine ⟨?_, ?_, ?_, ?_⟩
    · simp only [buildColumns, List.map_cons, List.nodup_cons]
      refine ⟨?_, ihnd⟩
      intro hmem
      have := ihnotin _ hmem
      rw [hkeys'] at this
      exact this (List.mem_append_right _ (by simp))
    · simp only [buildColumns, List.map_cons, List.mem_cons]
      rintro n (rfl | hn)
      · exact hfresh
      · intro hmem
        have := ihnotin n hn
        rw [hkeys'] at this
        exact this (List.mem_append_left _ hmem)
    · simp only [buildColumns, List.map_cons]
      rw [ihmap, hset, List.append_assoc]
      rfl
    · simp only [buildColumns, List.map_cons, ihorig]

/-- C7: sanitized column names are pairwise distinct in every
processed sheet (headers being nonempty strings, as `Object.keys` of
the parsed sheet yields); the name assigned to a header is the first
free candidate `base`, `base_1`, `base_2`, … against the names already
taken; and two distinct headers cleaning to the same base yield two
distinct names, the second `base_1`. -/
theorem c7_unique_column_names :
    (∀ (dp : String → Bool) (columnData : String → List Value) (headers : List String),
      (∀ h ∈ headers, h ≠ "") →
      ((buildColumns dp columnData headers []).1.map (fun c => c.name)).Nodup) ∧
    (∀ (m : List (String × String)) (base : String),
      ∃ k, uniqueCleanName m base = candidate base k ∧
        jsTruthyLookup m (candidate base k) = false ∧
        ∀ j < k, jsTruthyLookup m (candidate base j) = true) ∧
    (∀ (dp : String → Bool) (columnData : String → List Value) (h1 h2 : String),
      h1 ≠ "" → h2 ≠ "" → cleanColumnName h1 = cleanColumnName h2 →
      (buildColumns dp columnData [h1, h2] []).1.map (fun c => c.name) =
        [cleanColumnName h1, cleanColumnName h1 ++ "_1"]) := by
  refine ⟨?_, uniqueCleanName_spec, ?_⟩
  · intro dp columnData headers hh
    exact (buildColumns_spec dp columnData headers [] (by simp) hh).1
  · intro dp cd h1 h2 hh1 hh2 hcl
    have key : uniqueCleanName [(cleanColumnName h1, h1)] (cleanColumnName h1) =
        cleanColumnName h1 ++ "_1" := by
      have ht0 : jsTruthyLookup [(cleanColumnName h1, h1)]
          (candidate (cleanColumnName h1) 0) = true := by
        show jsTruthyLookup [(cleanColumnName h1, h1)] (cleanColumnName h1) = true
        unfold jsTruthyLookup lookupOpt
        rw [if_pos rfl]
        simp [hh1]
      have hne01 : cleanColumnName h1 ≠ candidate (cleanColumnName h1) 1 := by
        intro he
        have : (0 : Nat) = 1 := candidate_injective (cleanColumnName h1) he
        omega
      have ht1 : jsTruthyLookup [(cleanColumnName h1, h1)]
          (candidate (cleanColumnName h1) 1) = false := by
        unfold jsTruthyLookup lookupOpt
        rw [if_neg (fun he => hne01 he)]
        rfl
      have hff : findFreeAux [(cleanColumnName h1, h1)] (cleanColumnName h1) 2 0 = 1 := by
        have s1 : findFreeAux [(cleanColumnName h1, h1)] (cleanColumnName h1) 2 0 =
            findFreeAux [(cleanColumnName h1, h1)] (cleanColumnName h1) 1 1 := by
          simp only [findFreeAux, ht0, if_true]
        have s2 : findFreeAux [(cleanColumnName h1, h1)] (cleanColumnName h1) 1 1 = 1 := by
          simp only [findFreeAux, ht1]
          simp
        rw [s1, s2]
      show candidate (cleanColumnName h1)
        (findFreeAux [(cleanColumnName h1, h1)] (cleanColumnName h1)
          ([(cleanColumnName h1, h1)].length + 1) 0) = cleanColumnName h1 ++ "_1"
      rw [show ([(cleanColumnName h1, h1)].length + 1) = 2 from rfl, hff]
      apply String.ext
      show (cleanColumnName h1 ++ "_" ++ decStr 1).data = (cleanColumnName h1 ++ "_1").data
      rw [String.data_append, String.data_append, String.data_append, List.append_assoc]
      congr 1
    simp only [buildColumns, List.map_cons, List.map_nil]
    have e1 : uniqueCleanName [] (cleanColumnName h1) = cleanColumnName h1 := rfl
    rw [e1, ← hcl]
    have e2 : setEntry [] (cleanColumnName h1) h1 = [(cleanColumnName h1, h1)] := rfl
    rw [e2, key]

/-- C7 witness: the colliding headers "Sales $" and "Sales #" (both
cleaning to `sales_`) get the distinct names `sales_` and `sales__1`. -/
theorem c7_unique_column_names_witness :
    (∀ h ∈ ["Sales $", "Sales #"], h ≠ "") ∧
      ((buildColumns (fun _ => false) (fun _ => []) ["Sales $", "Sales #"] []).1.map
        (fun c => c.name)).Nodup ∧
      (("Sales $" : String) ≠ "") ∧ (("Sales #" : String) ≠ "") ∧
      cleanColumnName "Sales $" = cleanColumnName "Sales #" ∧
      (buildColumns (fun _ => false) (fun _ => []) ["Sales $", "Sales #"] []).1.map
        (fun c => c.name) =
        [cleanColumnName "Sales $", cleanColumnName "Sales $" ++ "_1"] :=
  ⟨by decide, c7_unique_column_names.1 (fun _ => false) (fun _ => []) _ (by decide),
    by decide, by decide, by decide,
    c7_unique_column_names.2.2 (fun _ => false) (fun _ => []) "Sales $" "Sales #"
      (by decide) (by decide) (by decide)⟩

/-- C10: in a processed sheet with at least one row, every re-keyed
row has exactly the sanitized names as its ordered key list (one key
per column, pairwise distinct); the columns' original names are the
headers in order; and each row's value under a sanitized name is the
row's value under the corresponding original header (`jsGet` returns
null for a missing key, so a missing source cell appears as a null
value under a present key, never as an absent key).  Headers are
nonempty strings, being `Object.keys` of the parsed first row. -/
theorem c10_rekeyed_rows (dp : String → Bool) (r0 : Row) (rest : List Row)
    (hh : ∀ h ∈ r0.map Prod.fst, h ≠ "") :
    ((processSheetRows dp (r0 :: rest)).columns.map (fun c => c.name)).Nodup ∧
    (processSheetRows dp (r0 :: rest)).columns.map (fun c => c.originalName) =
      r0.map Prod.fst ∧
    (processSheetRows dp (r0 :: rest)).data =
      (r0 :: rest).map (fun r => (processSheetRows dp (r0 :: rest)).columns.map
        (fun c => (c.name, jsGet r c.originalName))) ∧
    ∀ row ∈ (processSheetRows dp (r0 :: rest)).data,
      row.map Prod.fst = (processSheetRows dp (r0 :: rest)).columns.map (fun c => c.name) := by
  obtain ⟨hnd, hnotin, hmap, horig⟩ := buildColumns_spec dp
    (fun col => (r0 :: rest).map (fun r => jsGet r col)) (r0.map Prod.fst) [] (by simp) hh
  have hcols : (processSheetRows dp (r0 :: rest)).columns =
      (buildColumns dp (fun col => (r0 :: rest).map (fun r => jsGet r col))
        (r0.map Prod.fst) []).1 := rfl
  have hdata : (processSheetRows dp (r0 :: rest)).data =
      (r0 :: rest).map (transformRow
        (buildColumns dp (fun col => (r0 :: rest).map (fun r => jsGet r col))
          (r0.map Prod.fst) []).2) := rfl
  have hmap2 : (buildColumns dp (fun col => (r0 :: rest).map (fun r => jsGet r col))
      (r0.map Prod.fst) []).2 =
      (processSheetRows dp (r0 :: rest)).columns.map (fun c => (c.name, c.originalName)) := by
    rw [hcols, hmap]
    rfl
  have htrans : ∀ r : Row, transformRow
      ((processSheetRows dp (r0 :: rest)).columns.map (fun c => (c.name, c.originalName))) r =
      (processSheetRows dp (r0 :: rest)).columns.map
        (fun c => (c.name, jsGet r c.originalName)) := by
    intro r
    unfold transformRow
    rw [List.map_map]
    rfl
  refine ⟨?_, ?_, ?_, ?_⟩
  · rw [hcols]
    exact hnd
  · rw [hcols]
    exact horig
  · rw [hdata, hmap2]
    exact List.map_congr_left fun r _ => htrans r
  · intro row hrow
    rw [hdata, hmap2] at hrow
    rw [List.mem_map] at hrow
    obtain ⟨r, _, hr⟩ := hrow
    rw [← hr, htrans r, List.map_map]
    rfl

/-- C10 witness: a two-row sheet whose headers are "A B" and "C"
(cleaned to `a_b` and `c`), with a null cell. -/
theorem c10_rekeyed_rows_witness :
    (∀ h ∈ ([("A B", Value.vnum 1), ("C", Value.vnull)] : Row).map Prod.fst, h ≠ "") ∧
      ((processSheetRows (fun _ => false)
        [[("A B", Value.vnum 1), ("C", Value.vnull)],
         [("A B", Value.vnum 2), ("C", Value.vstr "x")]]).columns.map
          (fun c => c.name)).Nodup ∧
      ∀ row ∈ (processSheetRows (fun _ => false)
          [[("A B", Value.vnum 1), ("C", Value.vnull)],
           [("A B", Value.vnum 2), ("C", Value.vstr "x")]]).data,
        row.map Prod.fst = (processSheetRows (fun _ => false)
          [[("A B", Value.vnum 1), ("C", Value.vnull)],
           [("A B", Value.vnum 2), ("C", Value.vstr "x")]]).columns.map (fun c => c.name) :=
  ⟨by decide,
    (c10_rekeyed_rows (fun _ => false) [("A B", Value.vnum 1), ("C", Value.vnull)]
      [[("A B", Value.vnum 2), ("C", Value.vstr "x")]] (by decide)).1,
    (c10_rekeyed_rows (fun _ => false) [("A B", Value.vnum 1), ("C", Value.vnull)]
      [[("A B", Value.vnum 2), ("C", Value.vstr "x")]] (by decide)).2.2.2⟩
